import Mathlib

/-!
# Trojan-over-WebSocket worker (`src/trojan-ws.js`): header parser, session dispatch,
UDP frame demultiplexer, DNS answer framing and early-data decoding

The JavaScript of `src/trojan-ws.js` is embedded as pure Lean functions.

* A byte is a `Fin 256`; the contents of an `ArrayBuffer` is a `List Byte`.
* An `ArrayBuffer` is an object: it has an identity (`ref`) next to its contents, because
  the credential check of `processTrojanHeader` compares two buffers with `!==`, which on
  objects compares identities, not contents.
* A JavaScript exception is an `Except.error`; an object literal with optional
  fields is a structure whose absent fields are `none`.
-/

namespace TrojanWs

deriving instance DecidableEq for Except

/-! ## Bytes, buffers and object identity -/

/-- One octet. -/
abbrev Byte := Fin 256

/-- Exceptions the embedded code can raise: the `RangeError` of a `DataView` read outside
its buffer, `new Error(message)` thrown by the session, and the `InvalidCharacterError`
of `atob`. -/
inductive JSError where
  | rangeError
  | error (message : String)
  | invalidCharacter
  deriving DecidableEq, Repr

/-- An `ArrayBuffer` object: `ref` is the identity of the object, `bytes` its contents. -/
structure ArrayBuffer where
  ref : Nat
  bytes : List Byte
  deriving DecidableEq, Repr

/-- The property `byteLength` of an `ArrayBuffer`. -/
def ArrayBuffer.byteLength (b : ArrayBuffer) : Nat := b.bytes.length

/-- Allocation state of the worker: `allocated` counts the objects created since the
module was loaded. The module-level buffer `passwordSha224` has reference 0; the next
object to be created gets reference `allocated + 1`, which no existing object has. -/
structure Heap where
  allocated : Nat
  deriving DecidableEq, Repr

/-- Contents of `buffer.slice(begin, end)` for non-negative integer arguments: the bytes
at the indices `begin ≤ i < min end byteLength` (empty when `end ≤ begin`). -/
def slice (bytes : List Byte) (start stop : Nat) : List Byte :=
  (bytes.take stop).drop start

/-- Contents of `buffer.slice(begin)`: the bytes from `begin` to the end. -/
def sliceFrom (bytes : List Byte) (start : Nat) : List Byte :=
  bytes.drop start

/-- The method `ArrayBuffer.prototype.slice(begin, end)`: it returns a NEW `ArrayBuffer`
object (reference `allocated + 1`) holding a copy of the selected bytes. -/
def ArrayBuffer.slice (h : Heap) (b : ArrayBuffer) (start stop : Nat) : ArrayBuffer :=
  { ref := h.allocated + 1, bytes := TrojanWs.slice b.bytes start stop }

/-- The operator `a !== b` on two objects: true exactly when they are not the same object. -/
def strictNotEqual (a b : ArrayBuffer) : Bool := a.ref != b.ref

/-- Element access `new Uint8Array(buffer)[i]`: `undefined` (here `none`) when `i` is not
below the length. -/
def uint8At (bytes : List Byte) (i : Nat) : Option Nat :=
  (bytes.get? i).map (fun b => b.val)

/-- The method `DataView.prototype.getUint16(offset)` (big-endian): throws a `RangeError`
when the two bytes at `offset`, `offset + 1` are not both inside the view. -/
def getUint16 (bytes : List Byte) (offset : Nat) : Except JSError Nat :=
  match bytes.get? offset, bytes.get? (offset + 1) with
  | some hi, some lo => .ok (256 * hi.val + lo.val)
  | _, _ => .error .rangeError

/-- Line 3: `const password = ''`. -/
def password : String := ""

/-- Line 7: `passwordSha224 = await crypto.subtle.digest('SHA-224', encode(password))`, the
28-byte SHA-224 digest of the empty password
(d14a028c 2a3a2bc9 476102bb 288234c4 15a2b01f 828ea62a c5b3e42f), an `ArrayBuffer` created
when the module is loaded (reference 0). -/
def passwordSha224 : ArrayBuffer :=
  { ref := 0
    bytes := [209, 74, 2, 140, 42, 58, 43, 201, 71, 97, 2, 187, 40, 130, 52, 196,
              21, 162, 176, 31, 130, 142, 166, 42, 197, 179, 228, 47] }

/-! ## Strings: number formatting, `join`, `TextDecoder` -/

/-- The method `Number.prototype.toString(radix)` on a non-negative integer. -/
def numberToString (radix n : Nat) : List Char := Nat.toDigits radix n

/-- Template-literal rendering of a value that may be `undefined`. -/
def showNumber : Option Nat → String
  | none => "undefined"
  | some n => String.mk (numberToString 10 n)

/-- The method `Array.prototype.join(separator)` on already rendered elements. -/
def joinWith (sep : Char) : List (List Char) → List Char
  | [] => []
  | [x] => x
  | x :: y :: rest => x ++ sep :: joinWith sep (y :: rest)

/-- State of the UTF-8 decoder of the WHATWG Encoding standard. -/
structure Utf8State where
  codePoint : Nat
  bytesSeen : Nat
  bytesNeeded : Nat
  lower : Nat
  upper : Nat
  deriving DecidableEq, Repr

/-- Initial decoder state: no pending sequence, continuation range 0x80..0xBF. -/
def Utf8State.init : Utf8State :=
  { codePoint := 0, bytesSeen := 0, bytesNeeded := 0, lower := 0x80, upper := 0xBF }

/-- The replacement character U+FFFD, emitted for every decoding error (the decoder is
created with `new TextDecoder()`, whose error mode is "replacement"). -/
def replacementChar : Char := Char.ofNat 0xFFFD

/-- Step 3 of the UTF-8 decoder handler (no sequence pending): an ASCII byte is a code
point, a lead byte opens a sequence (`byte & 0x1F` is `byte % 32` and so on), any other
byte is an error. -/
def utf8Lead (b : Nat) : Utf8State × List Char :=
  if b ≤ 0x7F then (Utf8State.init, [Char.ofNat b])
  else if 0xC2 ≤ b ∧ b ≤ 0xDF then
    ({ Utf8State.init with bytesNeeded := 1, codePoint := b % 32 }, [])
  else if 0xE0 ≤ b ∧ b ≤ 0xEF then
    ({ codePoint := b % 16, bytesSeen := 0, bytesNeeded := 2,
       lower := if b = 0xE0 then 0xA0 else 0x80,
       upper := if b = 0xED then 0x9F else 0xBF }, [])
  else if 0xF0 ≤ b ∧ b ≤ 0xF4 then
    ({ codePoint := b % 8, bytesSeen := 0, bytesNeeded := 3,
       lower := if b = 0xF0 then 0x90 else 0x80,
       upper := if b = 0xF4 then 0x8F else 0xBF }, [])
  else (Utf8State.init, [replacementChar])

/-- The UTF-8 decoder handler for one byte. With a sequence pending, a byte outside
`lower..upper` is an error and is then processed again from the initial state (step 4);
a byte inside extends the code point by six bits, `(codePoint << 6) | (byte & 0x3F)`. -/
def utf8Handle (st : Utf8State) (b : Nat) : Utf8State × List Char :=
  if st.bytesNeeded = 0 then utf8Lead b
  else if b < st.lower ∨ st.upper < b then
    ((utf8Lead b).1, replacementChar :: (utf8Lead b).2)
  else
    let cp := st.codePoint * 64 + b % 64
    if st.bytesSeen + 1 ≠ st.bytesNeeded then
      ({ codePoint := cp, bytesSeen := st.bytesSeen + 1, bytesNeeded := st.bytesNeeded,
         lower := 0x80, upper := 0xBF }, [])
    else (Utf8State.init, [Char.ofNat cp])

/-- Run the decoder over the input; at the end of the input a pending sequence is an
error (step 1 of the handler). -/
def utf8Run : Utf8State → List Byte → List Char
  | st, [] => if st.bytesNeeded ≠ 0 then [replacementChar] else []
  | st, b :: rest => (utf8Handle st b.val).2 ++ utf8Run (utf8Handle st b.val).1 rest

/-- The call `new TextDecoder().decode(buffer)`: UTF-8, replacement error mode, and a
leading byte order mark EF BB BF is removed (`ignoreBOM` is false by default). -/
def textDecode (bytes : List Byte) : List Char :=
  match bytes with
  | 0xEF :: 0xBB :: 0xBF :: rest => utf8Run Utf8State.init rest
  | _ => utf8Run Utf8State.init bytes

/-! ## `processTrojanHeader` (lines 217-301) -/

/-- The object `processTrojanHeader` returns; a field the object literal does not have
is `none`. -/
structure HeaderResult where
  hasError : Bool
  message : Option String := none
  addressRemote : Option String := none
  addressType : Option Nat := none
  portRemote : Option Nat := none
  rawDataIndex : Option Nat := none
  isUDP : Option Bool := none
  deriving DecidableEq, Repr

/-- Lines 284-300 of `processTrojanHeader`: the empty-address check, the port read and
the successful result. -/
def headerTail (trojanBuffer : List Byte) (addressType : Nat) (isUDP : Bool)
    (addressValue : List Char) (addressValueIndex addressLength : Nat) :
    Except JSError HeaderResult :=
  if addressValue = [] then
    .ok { hasError := true,
          message := some ("addressValue is empty, addressType is "
            ++ showNumber (some addressType)) }
  else
    let portBuffer := slice trojanBuffer (addressValueIndex + addressLength)
      (addressValueIndex + addressLength + 2)
    match getUint16 portBuffer 0 with
    | .error e => .error e
    | .ok portRemote =>
      .ok { hasError := false,
            addressRemote := some (String.mk addressValue),
            addressType := some addressType,
            portRemote := some portRemote,
            rawDataIndex := some (addressValueIndex + addressLength + 4),
            isUDP := some isUDP }

/-- The eight `dataView.getUint16(i * 2)` reads of the IPv6 case (lines 273-275); the
first read outside the 16-byte view throws. -/
def readGroups (view : List Byte) : Nat → Nat → Except JSError (List Nat)
  | _, 0 => .ok []
  | i, n + 1 =>
    match getUint16 view (i * 2) with
    | .error e => .error e
    | .ok g =>
      match readGroups view (i + 1) n with
      | .error e => .error e
      | .ok gs => .ok (g :: gs)

/-- Lines 231-300 of `processTrojanHeader`: the header decoding that follows the
credential check (command byte at 58, address type at 59, address from 60, port, and
the payload offset). -/
def decodeHeader (trojanBuffer : List Byte) : Except JSError HeaderResult :=
  let command := uint8At (slice trojanBuffer 58 59) 0
  if command ≠ some 1 ∧ command ≠ some 3 then
    .ok { hasError := true,
          message := some ("command " ++ showNumber command
            ++ " is not support, command 01-tcp,02-udp,03-mux") }
  else
    let isUDP := decide (command = some 3)
    let addressType := uint8At (slice trojanBuffer 59 60) 0
    match addressType with
    | some 1 =>
      let addressValue := joinWith '.'
        ((slice trojanBuffer 60 (60 + 4)).map (fun b => numberToString 10 b.val))
      headerTail trojanBuffer 1 isUDP addressValue 60 4
    | some 3 =>
      match uint8At (slice trojanBuffer 60 (60 + 1)) 0 with
      | none =>
        -- addressLength is undefined: `slice(61, NaN)` is empty and decodes to ''
        headerTail trojanBuffer 3 isUDP (textDecode []) 61 0
      | some addressLength =>
        let addressValue := textDecode (slice trojanBuffer 61 (61 + addressLength))
        headerTail trojanBuffer 3 isUDP addressValue 61 addressLength
    | some 4 =>
      match readGroups (slice trojanBuffer 60 (60 + 16)) 0 8 with
      | .error e => .error e
      | .ok ipv6 =>
        let addressValue := joinWith ':' (ipv6.map (fun g => numberToString 16 g))
        headerTail trojanBuffer 4 isUDP addressValue 60 16
    | _ =>
      .ok { hasError := true,
            message := some ("invild  addressType is " ++ showNumber addressType) }

/-- The function `processTrojanHeader(trojanBuffer)` (lines 217-301). The second check
compares the fresh object `trojanBuffer.slice(0, 56)` with the object `passwordSha224`
using `!==`. -/
def processTrojanHeader (h : Heap) (trojanBuffer : ArrayBuffer) :
    Except JSError HeaderResult :=
  if trojanBuffer.byteLength < 56 then
    .ok { hasError := true, message := some "invalid data" }
  else if strictNotEqual (trojanBuffer.slice h 0 56) passwordSha224 then
    .ok { hasError := true, message := some "invalid user" }
  else decodeHeader trojanBuffer.bytes

/-! ## The session write handler (lines 57-104) -/

/-- The session variables `remoteSocketWapper.value`, `udpStreamWrite` and `isDns`
(lines 49-53); for the two handles only their presence is recorded. -/
structure Session where
  remoteSocket : Bool
  udpStreamWrite : Bool
  isDns : Bool
  deriving DecidableEq, Repr

/-- Session variables when the first chunk arrives: no outbound connection, no DNS
writer, `isDns = false`. -/
def Session.initial : Session :=
  { remoteSocket := false, udpStreamWrite := false, isDns := false }

/-- What one call of the write handler does. -/
inductive WriteAction where
  /-- Line 59: the chunk goes to the DNS relay that already exists. -/
  | udpWrite (chunk : List Byte)
  /-- Lines 62-65: the chunk goes to the outbound connection that already exists. -/
  | remoteWrite (chunk : List Byte)
  /-- Lines 75, 80, 90: the handler throws; nothing is dialled and nothing is forwarded. -/
  | threw (e : JSError)
  /-- Lines 98-100: `handleUDPOutBound` starts the DNS relay and gets the first payload. -/
  | startUDP (rawClientData : List Byte)
  /-- Line 103: `handleTCPOutBound` dials and writes the first payload. -/
  | startTCP (addressRemote : String) (portRemote : Nat) (rawClientData : List Byte)
  deriving DecidableEq, Repr

/-- An outbound relay is started by this call. -/
def WriteAction.startsRelay : WriteAction → Bool
  | .startUDP _ => true
  | .startTCP _ _ _ => true
  | _ => false

/-- Lines 68-103 of the write handler, after `processTrojanHeader` has returned `r`:
the destructuring defaults `portRemote = 443`, `addressRemote = ''`, the error check,
the UDP port check and the dispatch. -/
def writeAfterHeader (r : HeaderResult) (chunk : ArrayBuffer) : WriteAction :=
  let portRemote := r.portRemote.getD 443
  let addressRemote := r.addressRemote.getD ""
  if r.hasError then .threw (.error (r.message.getD ""))
  else if r.isUDP = some true then
    if portRemote = 53 then
      .startUDP (sliceFrom chunk.bytes (r.rawDataIndex.getD 0))
    else .threw (.error "UDP proxy only enable for DNS which is port 53")
  else .startTCP addressRemote portRemote (sliceFrom chunk.bytes (r.rawDataIndex.getD 0))

/-- The write handler of the session (lines 57-104). An exception raised inside
`processTrojanHeader` propagates out of the handler. -/
def write (h : Heap) (s : Session) (chunk : ArrayBuffer) : WriteAction :=
  if s.isDns && s.udpStreamWrite then .udpWrite chunk.bytes
  else if s.remoteSocket then .remoteWrite chunk.bytes
  else
    match processTrojanHeader h chunk with
    | .error e => .threw e
    | .ok r => writeAfterHeader r chunk

/-! ## `handleUDPOutBound`: frame demultiplexer (lines 383-395) and answer framing
(lines 411-418) -/

/-- How the loop of the transform step ended. -/
inductive LoopStatus where
  | done
  | threw (e : JSError)
  | outOfFuel
  deriving DecidableEq, Repr

/-- Datagrams passed to `controller.enqueue`, in order, and how the loop ended. -/
structure TransformResult where
  enqueued : List (List Byte)
  status : LoopStatus
  deriving DecidableEq, Repr

/-- The loop `for (let index = 0; index < chunk.byteLength;)` of lines 386-394, run
from `index` with a bound `fuel` on the number of iterations. -/
def transformLoop (chunk : List Byte) : Nat → Nat → TransformResult
  | 0, index =>
    if index < chunk.length then { enqueued := [], status := .outOfFuel }
    else { enqueued := [], status := .done }
  | fuel + 1, index =>
    if index < chunk.length then
      let lengthBuffer := slice chunk index (index + 2)
      match getUint16 lengthBuffer 0 with
      | .error e => { enqueued := [], status := .threw e }
      | .ok udpPakcetLength =>
        let udpData := slice chunk (index + 2) (index + 2 + udpPakcetLength)
        let r := transformLoop chunk fuel (index + 2 + udpPakcetLength)
        { enqueued := udpData :: r.enqueued, status := r.status }
    else { enqueued := [], status := .done }

/-- The transform step of `handleUDPOutBound` on one chunk (the `ArrayBuffer` the write
handler passes on). Every iteration advances `index` by at least 2, so `byteLength`
iterations always suffice. -/
def transform (chunk : List Byte) : TransformResult :=
  transformLoop chunk chunk.length 0

/-- Line 414: `new Uint8Array([(udpSize >> 8) & 0xff, udpSize & 0xff])`. -/
def udpSizeBuffer (udpSize : Nat) : List Byte :=
  [⟨udpSize / 256 % 256, Nat.mod_lt _ (by decide)⟩, ⟨udpSize % 256, Nat.mod_lt _ (by decide)⟩]

/-- Line 417: the message `new Blob([udpSizeBuffer, dnsQueryResult])`. -/
def dnsMessage (dnsQueryResult : List Byte) : List Byte :=
  udpSizeBuffer dnsQueryResult.length ++ dnsQueryResult

/-- Lines 411-418: the messages sent on the upgrade socket for one DNS answer; nothing
is sent unless the socket is open (`WS_READY_STATE_OPEN = 1`). -/
def dnsWrite (readyState : Nat) (dnsQueryResult : List Byte) : List (List Byte) :=
  if readyState = 1 then [dnsMessage dnsQueryResult] else []

/-- A complete frame in the words of the specification: the 2-byte big-endian length of
the data, then the data. -/
def frame (data : List Byte) : List Byte :=
  Fin.ofNat (data.length / 256) :: Fin.ofNat (data.length % 256) :: data

/-! ## Early data: `base64ToArrayBuffer` (lines 347-360) and the start of the stream
adapter (lines 187-192) -/

/-- Position of a character in the base64 alphabet `A-Z a-z 0-9 + /`. -/
def base64Index (c : Char) : Option Nat :=
  if 'A' ≤ c ∧ c ≤ 'Z' then some (c.toNat - 65)
  else if 'a' ≤ c ∧ c ≤ 'z' then some (c.toNat - 97 + 26)
  else if '0' ≤ c ∧ c ≤ '9' then some (c.toNat - 48 + 52)
  else if c = '+' then some 62
  else if c = '/' then some 63
  else none

/-- The 6-bit values of a string of base64 characters; `none` when a character is not
in the alphabet (step 4 of forgiving-base64 decode). -/
def base64Indices : List Char → Option (List Nat)
  | [] => some []
  | c :: cs =>
    match base64Index c, base64Indices cs with
    | some i, some is => some (i :: is)
    | _, _ => none

/-- ASCII whitespace: TAB, LF, FF, CR, SPACE. -/
def isAsciiWhitespace (c : Char) : Bool :=
  c.toNat = 9 ∨ c.toNat = 10 ∨ c.toNat = 12 ∨ c.toNat = 13 ∨ c.toNat = 32

/-- Step 2 of forgiving-base64 decode: one or two trailing `=` are removed. -/
def stripPadding (data : List Char) : List Char :=
  if data.getLast? = some '=' then
    if data.dropLast.getLast? = some '=' then data.dropLast.dropLast else data.dropLast
  else data

/-- The bit buffer of forgiving-base64 decode on the 6-bit values: 24 bits give three
bytes; at the end 18 bits give two bytes (the last 2 bits are discarded) and 12 bits
give one byte (the last 4 bits are discarded). -/
def decodeSextets : List Nat → List Nat
  | a :: b :: c :: d :: rest =>
    (((a * 64 + b) * 64 + c) * 64 + d) / 65536
      :: (((a * 64 + b) * 64 + c) * 64 + d) / 256 % 256
      :: (((a * 64 + b) * 64 + c) * 64 + d) % 256
      :: decodeSextets rest
  | [a, b, c] => [((a * 64 + b) * 64 + c) / 4 / 256, ((a * 64 + b) * 64 + c) / 4 % 256]
  | [a, b] => [(a * 64 + b) / 16]
  | _ => []

/-- The function `atob` (forgiving-base64 decode of the WHATWG Infra standard): the
result is a binary string, one character per decoded byte. -/
def atob (data : List Char) : Except JSError (List Char) :=
  let data := data.filter (fun c => !isAsciiWhitespace c)
  let data := if data.length % 4 = 0 then stripPadding data else data
  if data.length % 4 = 1 then .error .invalidCharacter
  else
    match base64Indices data with
    | none => .error .invalidCharacter
    | some sextets => .ok ((decodeSextets sextets).map Char.ofNat)

/-- The object `base64ToArrayBuffer` returns. -/
structure EarlyData where
  earlyData : Option (List Byte) := none
  error : Option JSError := none
  deriving DecidableEq, Repr

/-- The function `base64ToArrayBuffer(base64Str)` (lines 347-360). -/
def base64ToArrayBuffer (base64Str : String) : EarlyData :=
  if base64Str.data = [] then { error := none }
  else
    let replaced := (base64Str.data.map (fun c => if c = '-' then '+' else c)).map
      (fun c => if c = '_' then '/' else c)
    match atob replaced with
    | .error e => { error := some e }
    | .ok decode =>
      { earlyData := some (decode.map (fun c => Fin.ofNat c.toNat)), error := none }

/-- Calls on the stream controller. -/
inductive ControllerAction where
  | enqueue (chunk : List Byte)
  | error (e : JSError)
  deriving DecidableEq, Repr

/-- Lines 187-192 of `makeReadableWebSocketStream`: what `start` does with the early
data header. -/
def startEarlyData (earlyDataHeader : String) : List ControllerAction :=
  match (base64ToArrayBuffer earlyDataHeader).error with
  | some e => [.error e]
  | none =>
    match (base64ToArrayBuffer earlyDataHeader).earlyData with
    | some earlyData => [.enqueue earlyData]
    | none => []

/-- The character of a 6-bit value in the URL-safe alphabet of RFC 4648
(`A-Z a-z 0-9 - _`). -/
def base64urlChar (n : Nat) : Char :=
  if n < 26 then Char.ofNat (65 + n)
  else if n < 52 then Char.ofNat (97 + (n - 26))
  else if n < 62 then Char.ofNat (48 + (n - 52))
  else if n = 62 then '-'
  else '_'

/-- The base64url encoding of RFC 4648, with (`pad = true`) or without `=` padding. -/
def base64urlEncode (pad : Bool) : List Byte → List Char
  | x :: y :: z :: rest =>
    base64urlChar (x.val / 4) :: base64urlChar (x.val % 4 * 16 + y.val / 16)
      :: base64urlChar (y.val % 16 * 4 + z.val / 64) :: base64urlChar (z.val % 64)
      :: base64urlEncode pad rest
  | [x, y] =>
    [base64urlChar (x.val / 4), base64urlChar (x.val % 4 * 16 + y.val / 16),
      base64urlChar (y.val % 16 * 4)] ++ (if pad then ['='] else [])
  | [x] =>
    [base64urlChar (x.val / 4), base64urlChar (x.val % 4 * 16)]
      ++ (if pad then ['=', '='] else [])
  | [] => []

/-! ## Inputs and results named in the statements -/

/-- The object returned by the credential check of `processTrojanHeader`. -/
def invalidUser : HeaderResult := { hasError := true, message := some "invalid user" }

/-- The object returned by the length check of `processTrojanHeader`. -/
def invalidData : HeaderResult := { hasError := true, message := some "invalid data" }

/-- The header of scenario 1: the credential, 30 skipped bytes, command 1, address
type 1, address 1.1.1.1, port 0x01 0xBB, two reserved bytes, then the payload. -/
def scenarioHeader (skipped payload : List Byte) : List Byte :=
  passwordSha224.bytes ++ skipped ++ [1, 1, 1, 1, 1, 1, 0x01, 0xBB, 13, 10] ++ payload

/-- The payload handed to the relay that a call of the write handler starts. -/
def WriteAction.payload : WriteAction → Option (List Byte)
  | .startUDP rawClientData => some rawClientData
  | .startTCP _ _ rawClientData => some rawClientData
  | _ => none

/-- A header for the decoding code alone: 58 bytes that it never reads, then the
command byte and what follows it. -/
def headerFrom58 (rest : List Byte) : List Byte := List.replicate 58 0 ++ rest

/-- The 6-bit groups of a byte sequence, three bytes giving four groups; a last group
is filled up with zero bits (RFC 4648, section 4). -/
def sextets : List Byte → List Nat
  | x :: y :: z :: rest =>
    x.val / 4 :: (x.val % 4 * 16 + y.val / 16) :: (y.val % 16 * 4 + z.val / 64)
      :: z.val % 64 :: sextets rest
  | [x, y] => [x.val / 4, x.val % 4 * 16 + y.val / 16, y.val % 16 * 4]
  | [x] => [x.val / 4, x.val % 4 * 16]
  | [] => []

/-- The `=` characters that end the padded encoding of `n` bytes. -/
def padding (pad : Bool) (n : Nat) : List Char :=
  if pad then List.replicate ((3 - n % 3) % 3) '=' else []

/-- Lines 353: the two `replace` calls on one character. -/
def replaceUrlChar (c : Char) : Char :=
  if (if c = '-' then '+' else c) = '_' then '/' else (if c = '-' then '+' else c)

/-! ## Re-encoding of a decoded address in the wire format

The wire format in the words of the specification: the type byte; then 4 address bytes
(type 1), or a one-byte length followed by the UTF-8 bytes of the name (type 3), or
eight big-endian 16-bit groups (type 4); then the 2-byte big-endian port. -/

/-- Value of a digit character `0-9 a-f`. -/
def digitValue (c : Char) : Option Nat :=
  if '0' ≤ c ∧ c ≤ '9' then some (c.toNat - 48)
  else if 'a' ≤ c ∧ c ≤ 'f' then some (c.toNat - 87)
  else none

/-- Read digits in the given radix, most significant first, onto `acc`. -/
def parseDigits (radix : Nat) : Nat → List Char → Option Nat
  | acc, [] => some acc
  | acc, c :: cs =>
    match digitValue c with
    | some v => if v < radix then parseDigits radix (acc * radix + v) cs else none
    | none => none

/-- Read a non-empty string of digits as a number. -/
def parseNat (radix : Nat) (cs : List Char) : Option Nat :=
  if cs = [] then none else parseDigits radix 0 cs

/-- Read every part as a number. -/
def parseAll (radix : Nat) : List (List Char) → Option (List Nat)
  | [] => some []
  | p :: ps =>
    match parseNat radix p, parseAll radix ps with
    | some n, some ns => some (n :: ns)
    | _, _ => none

/-- Split a string at every occurrence of the separator. -/
def splitOn (sep : Char) : List Char → List (List Char)
  | [] => [[]]
  | c :: cs =>
    if c = sep then [] :: splitOn sep cs
    else
      match splitOn sep cs with
      | [] => [[c]]
      | p :: ps => (c :: p) :: ps

/-- The UTF-8 bytes of one character. -/
def utf8EncodeChar (c : Char) : List Byte :=
  if c.toNat < 0x80 then [Fin.ofNat c.toNat]
  else if c.toNat < 0x800 then
    [Fin.ofNat (0xC0 + c.toNat / 64), Fin.ofNat (0x80 + c.toNat % 64)]
  else if c.toNat < 0x10000 then
    [Fin.ofNat (0xE0 + c.toNat / 4096), Fin.ofNat (0x80 + c.toNat / 64 % 64),
      Fin.ofNat (0x80 + c.toNat % 64)]
  else
    [Fin.ofNat (0xF0 + c.toNat / 262144), Fin.ofNat (0x80 + c.toNat / 4096 % 64),
      Fin.ofNat (0x80 + c.toNat / 64 % 64), Fin.ofNat (0x80 + c.toNat % 64)]

/-- The UTF-8 bytes of a string. -/
def utf8Encode : List Char → List Byte
  | [] => []
  | c :: cs => utf8EncodeChar c ++ utf8Encode cs

/-- The two bytes of a big-endian 16-bit value. -/
def uint16Bytes (n : Nat) : List Byte := [Fin.ofNat (n / 256), Fin.ofNat (n % 256)]

/-- The bytes of a run of big-endian 16-bit values. -/
def groupBytes : List Nat → List Byte
  | [] => []
  | g :: gs => uint16Bytes g ++ groupBytes gs

/-- The wire bytes (address type, address, port) of a decoded address; `none` when the
text is not an address of the given type or a value does not fit its field. -/
def encodeAddress (addressType : Nat) (addressValue : List Char) (port : Nat) :
    Option (List Byte) :=
  if 65536 ≤ port then none
  else
    match addressType with
    | 1 =>
      match parseAll 10 (splitOn '.' addressValue) with
      | some ns =>
        if ns.length = 4 ∧ ∀ n ∈ ns, n < 256 then
          some (1 :: ns.map Fin.ofNat ++ uint16Bytes port)
        else none
      | none => none
    | 3 =>
      if (utf8Encode addressValue).length < 256 then
        some (3 :: Fin.ofNat (utf8Encode addressValue).length :: utf8Encode addressValue
          ++ uint16Bytes port)
      else none
    | 4 =>
      match parseAll 16 (splitOn ':' addressValue) with
      | some gs =>
        if gs.length = 8 ∧ ∀ g ∈ gs, g < 65536 then
          some (4 :: groupBytes gs ++ uint16Bytes port)
        else none
      | none => none
    | _ => none

/-- The byte order mark U+FEFF. -/
def byteOrderMark : Char := Char.ofNat 0xFEFF

/-! ## `safeCloseWebSocket` (lines 362-374) -/

/-- Line 4: `const WS_READY_STATE_OPEN = 1`. -/
def WS_READY_STATE_OPEN : Nat := 1

/-- Line 5: `const WS_READY_STATE_CLOSING = 2`. -/
def WS_READY_STATE_CLOSING : Nat := 2

/-- The upgrade socket as `safeCloseWebSocket` sees it: its `readyState` (0 connecting,
1 open, 2 closing, 3 closed) and the number of close effects on the socket so far
(closing handshakes started), which is what the peer can observe of a close. -/
structure WebSocket where
  readyState : Nat
  closeEffects : Nat
  deriving DecidableEq, Repr

/-- The platform method `socket.close()` of the WebSocket standard. In state closing
or closed it does nothing; otherwise it starts the closing handshake and the state
becomes closing. A runtime may instead reject the call with an exception, which leaves
the socket as it is: `raises` says for which sockets it does so (the standard
behaviour is `fun _ => none`). -/
def WebSocket.close (raises : WebSocket → Option JSError) (socket : WebSocket) :
    Except JSError WebSocket :=
  match raises socket with
  | some e => .error e
  | none =>
    if socket.readyState = 2 ∨ socket.readyState = 3 then .ok socket
    else .ok { readyState := 2, closeEffects := socket.closeEffects + 1 }

/-- What one call of `safeCloseWebSocket` did: the socket afterwards, whether
`socket.close()` was called (line 369) and the error passed to `console.error`
(line 372), if any. -/
structure CloseOutcome where
  socket : WebSocket
  closeCalled : Bool
  logged : Option JSError
  deriving DecidableEq, Repr

/-- The `try` block of `safeCloseWebSocket` (lines 368-370). -/
def safeCloseTry (raises : WebSocket → Option JSError) (socket : WebSocket) :
    Except JSError CloseOutcome :=
  if socket.readyState = WS_READY_STATE_OPEN ∨ socket.readyState = WS_READY_STATE_CLOSING then
    match socket.close raises with
    | .error e => .error e
    | .ok s => .ok { socket := s, closeCalled := true, logged := none }
  else .ok { socket := socket, closeCalled := false, logged := none }

/-- The function `safeCloseWebSocket(socket)` (lines 366-374): the `try` block, and the
`catch` clause that logs the error and returns normally. An exception can only come
from `socket.close()`, so `close` was called when the `catch` clause runs. -/
def safeCloseWebSocket (raises : WebSocket → Option JSError) (socket : WebSocket) :
    Except JSError CloseOutcome :=
  match safeCloseTry raises socket with
  | .ok o => .ok o
  | .error e => .ok { socket := socket, closeCalled := true, logged := some e }

/-! ## The credential and length checks -/

/-- The fresh object made by `slice` is never the module-level `passwordSha224`. -/
theorem slice_strictNotEqual (h : Heap) (b : ArrayBuffer) (i j : Nat) :
    strictNotEqual (b.slice h i j) passwordSha224 = true := by
  simp [strictNotEqual, ArrayBuffer.slice, passwordSha224]

/-- Every buffer of at least 56 bytes is rejected by the credential check. -/
theorem processTrojanHeader_of_long (h : Heap) (b : ArrayBuffer) (hlen : 56 ≤ b.byteLength) :
    processTrojanHeader h b = .ok invalidUser := by
  unfold processTrojanHeader
  rw [if_neg (by omega), if_pos (slice_strictNotEqual h b 0 56)]
  rfl

/-- Every buffer of fewer than 56 bytes is rejected by the length check. -/
theorem processTrojanHeader_of_short (h : Heap) (b : ArrayBuffer) (hlen : b.byteLength < 56) :
    processTrojanHeader h b = .ok invalidData := by
  unfold processTrojanHeader
  rw [if_pos hlen]
  rfl

/-- C1 (the code at the failing input): the header of scenario 1 carries the credential
in its first 28 bytes, and its decoding (lines 231-300) would give address 1.1.1.1,
port 443, TCP; yet `processTrojanHeader` returns `invalid user` for it, in every
allocation state and for every buffer object holding these bytes. -/
theorem C1_valid_header_rejected (h : Heap) (ref : Nat) :
    slice (scenarioHeader (List.replicate 30 0) [67, 76]) 0 28 = passwordSha224.bytes
    ∧ decodeHeader (scenarioHeader (List.replicate 30 0) [67, 76])
        = .ok { hasError := false, addressRemote := some "1.1.1.1", addressType := some 1,
                portRemote := some 443, rawDataIndex := some 68, isUDP := some false }
    ∧ processTrojanHeader h { ref := ref, bytes := scenarioHeader (List.replicate 30 0) [67, 76] }
        = .ok { hasError := true, message := some "invalid user" } := by
  refine ⟨by decide, by decide, ?_⟩
  exact processTrojanHeader_of_long h _ (show 56 ≤ (scenarioHeader (List.replicate 30 0) [67, 76]).length by decide)

/-- C2: a buffer of at least 56 bytes whose first 28 bytes differ from the credential
gets `hasError = true`, message `invalid user`, and no address, port, payload offset or
UDP flag; the bytes from offset 58 on play no part (the result is the same object
literal for every such buffer). -/
theorem C2_wrong_credential_invalid_user (h : Heap) (b : ArrayBuffer)
    (hlen : 56 ≤ b.byteLength) (_hcred : slice b.bytes 0 28 ≠ passwordSha224.bytes) :
    processTrojanHeader h b = .ok { hasError := true, message := some "invalid user" }
    ∧ ∀ r, processTrojanHeader h b = .ok r →
        r.addressRemote = none ∧ r.addressType = none ∧ r.portRemote = none
        ∧ r.rawDataIndex = none ∧ r.isUDP = none := by
  have hr := processTrojanHeader_of_long h b hlen
  refine ⟨hr, ?_⟩
  intro r hr'
  rw [hr] at hr'
  cases hr'
  exact ⟨rfl, rfl, rfl, rfl, rfl⟩

theorem C2_wrong_credential_invalid_user_witness :
    processTrojanHeader ⟨3⟩ ⟨4, List.replicate 58 7 ++ [1, 1, 1, 1, 1, 1, 0x01, 0xBB, 13, 10]⟩
      = .ok { hasError := true, message := some "invalid user" }
    ∧ ∀ r, processTrojanHeader ⟨3⟩ ⟨4, List.replicate 58 7 ++ [1, 1, 1, 1, 1, 1, 0x01, 0xBB, 13, 10]⟩
          = .ok r →
        r.addressRemote = none ∧ r.addressType = none ∧ r.portRemote = none
        ∧ r.rawDataIndex = none ∧ r.isUDP = none :=
  C2_wrong_credential_invalid_user ⟨3⟩
    ⟨4, List.replicate 58 7 ++ [1, 1, 1, 1, 1, 1, 0x01, 0xBB, 13, 10]⟩ (by decide) (by decide)

/-- C3: a buffer of fewer than 56 bytes gets `hasError = true`, message `invalid data`,
and the result has no `addressRemote`, `addressType`, `portRemote`, `rawDataIndex` or
`isUDP` field, whatever the bytes are. -/
theorem C3_short_buffer_invalid_data (h : Heap) (b : ArrayBuffer) (hlen : b.byteLength < 56) :
    processTrojanHeader h b = .ok { hasError := true, message := some "invalid data" }
    ∧ ∀ r, processTrojanHeader h b = .ok r →
        r.addressRemote = none ∧ r.addressType = none ∧ r.portRemote = none
        ∧ r.rawDataIndex = none ∧ r.isUDP = none := by
  have hr := processTrojanHeader_of_short h b hlen
  refine ⟨hr, ?_⟩
  intro r hr'
  rw [hr] at hr'
  cases hr'
  exact ⟨rfl, rfl, rfl, rfl, rfl⟩

theorem C3_short_buffer_invalid_data_witness :
    processTrojanHeader ⟨0⟩ ⟨1, passwordSha224.bytes ++ List.replicate 12 0⟩
      = .ok { hasError := true, message := some "invalid data" }
    ∧ ∀ r, processTrojanHeader ⟨0⟩ ⟨1, passwordSha224.bytes ++ List.replicate 12 0⟩ = .ok r →
        r.addressRemote = none ∧ r.addressType = none ∧ r.portRemote = none
        ∧ r.rawDataIndex = none ∧ r.isUDP = none :=
  C3_short_buffer_invalid_data ⟨0⟩ ⟨1, passwordSha224.bytes ++ List.replicate 12 0⟩ (by decide)

/-! ## Session dispatch -/

/-- What the dispatch of lines 76-103 does with a parser result: a relay is started
exactly when there is no error and the UDP flag is unset or the port is 53. -/
theorem writeAfterHeader_startsRelay (r : HeaderResult) (chunk : ArrayBuffer) :
    (writeAfterHeader r chunk).startsRelay = true
      ↔ r.hasError = false ∧ (r.isUDP ≠ some true ∨ r.portRemote = some 53) := by
  unfold writeAfterHeader
  cases hE : r.hasError <;> simp only [WriteAction.startsRelay, if_true, Bool.false_eq_true, if_false]
  · by_cases hU : r.isUDP = some true
    · cases hP : r.portRemote with
      | none => simp [hU, WriteAction.startsRelay]
      | some p =>
        by_cases h53 : p = 53
        · simp [hU, h53, WriteAction.startsRelay]
        · simp [hU, h53, WriteAction.startsRelay]
    · simp [hU, WriteAction.startsRelay]
  · simp

/-- When the dispatch of lines 76-103 starts no relay it throws. -/
theorem writeAfterHeader_threw (r : HeaderResult) (chunk : ArrayBuffer)
    (hno : (writeAfterHeader r chunk).startsRelay = false) :
    ∃ e, writeAfterHeader r chunk = .threw e := by
  unfold writeAfterHeader at hno ⊢
  by_cases hE : r.hasError = true
  · exact ⟨_, by rw [if_pos hE]⟩
  · rw [if_neg hE] at hno ⊢
    by_cases hU : r.isUDP = some true
    · rw [if_pos hU] at hno ⊢
      by_cases h53 : r.portRemote.getD 443 = 53
      · simp [h53, WriteAction.startsRelay] at hno
      · exact ⟨_, by rw [if_neg h53]⟩
    · simp [hU, WriteAction.startsRelay] at hno

/-- A command byte other than 1 and 3 makes the decoding return an error object. -/
theorem decodeHeader_bad_command (buf : List Byte)
    (h1 : uint8At buf 58 ≠ some 1) (h3 : uint8At buf 58 ≠ some 3) :
    decodeHeader buf
      = .ok { hasError := true,
              message := some ("command " ++ showNumber (uint8At buf 58)
                ++ " is not support, command 01-tcp,02-udp,03-mux") } := by
  have hc : uint8At (slice buf 58 59) 0 = uint8At buf 58 := by
    simp [uint8At, slice, List.getElem?_drop, List.getElem?_take]
  unfold decodeHeader
  simp only [hc]
  rw [if_pos ⟨h1, h3⟩]

/-- C4: on the first chunk of a session (no outbound connection, no DNS writer) the
write handler starts an outbound relay (`handleTCPOutBound` or `handleUDPOutBound`) if
and only if `processTrojanHeader` returns an object with `hasError = false` whose
`isUDP` is not set or whose `portRemote` is 53; otherwise it throws, which dials
nothing and forwards nothing. The same holds for the dispatch code on every object the
parser can hand over; a command byte outside 1, 3 gives an error object and a throw,
and command 3 with a port other than 53 throws the UDP error. -/
theorem C4_relay_started_iff_header_and_port_ok (h : Heap) (chunk : ArrayBuffer) :
    ((write h Session.initial chunk).startsRelay = true
      ↔ ∃ r, processTrojanHeader h chunk = .ok r ∧ r.hasError = false
          ∧ (r.isUDP ≠ some true ∨ r.portRemote = some 53))
    ∧ ((write h Session.initial chunk).startsRelay = false
        → ∃ e, write h Session.initial chunk = .threw e)
    ∧ (∀ r : HeaderResult,
        ((writeAfterHeader r chunk).startsRelay = true
          ↔ r.hasError = false ∧ (r.isUDP ≠ some true ∨ r.portRemote = some 53))
        ∧ ((writeAfterHeader r chunk).startsRelay = false
            → ∃ e, writeAfterHeader r chunk = .threw e))
    ∧ (uint8At chunk.bytes 58 ≠ some 1 → uint8At chunk.bytes 58 ≠ some 3 →
        ∃ r, decodeHeader chunk.bytes = .ok r ∧ r.hasError = true
          ∧ ∃ e, writeAfterHeader r chunk = .threw e)
    ∧ (∀ r : HeaderResult, r.hasError = false → r.isUDP = some true →
        r.portRemote ≠ some 53 →
        writeAfterHeader r chunk
          = .threw (.error "UDP proxy only enable for DNS which is port 53")) := by
  have hw : write h Session.initial chunk
      = match processTrojanHeader h chunk with
        | .error e => .threw e
        | .ok r => writeAfterHeader r chunk := by
    simp [write, Session.initial]
  refine ⟨?_, ?_, ?_, ?_, ?_⟩
  · rw [hw]
    cases hp : processTrojanHeader h chunk with
    | error e => simp [WriteAction.startsRelay]
    | ok r => simp [writeAfterHeader_startsRelay]
  · rw [hw]
    cases hp : processTrojanHeader h chunk with
    | error e => intro _; exact ⟨e, rfl⟩
    | ok r => exact writeAfterHeader_threw r chunk
  · intro r
    exact ⟨writeAfterHeader_startsRelay r chunk, writeAfterHeader_threw r chunk⟩
  · intro h1 h3
    refine ⟨_, decodeHeader_bad_command chunk.bytes h1 h3, rfl, ?_⟩
    exact ⟨_, rfl⟩
  · intro r hE hU hP
    have h53 : r.portRemote.getD 443 ≠ 53 := by
      cases hq : r.portRemote with
      | none => simp
      | some p => simpa [hq] using hP
    simp [writeAfterHeader, hE, hU, h53]

theorem C4_relay_started_iff_header_and_port_ok_witness :
    writeAfterHeader
        { hasError := false, addressRemote := some "1.1.1.1", addressType := some 1,
          portRemote := some 80, rawDataIndex := some 68, isUDP := some true }
        ⟨1, List.replicate 58 0 ++ [3, 1, 1, 1, 1, 1, 0, 80, 13, 10, 9]⟩
      = .threw (.error "UDP proxy only enable for DNS which is port 53") :=
  (C4_relay_started_iff_header_and_port_ok ⟨0⟩
    ⟨1, List.replicate 58 0 ++ [3, 1, 1, 1, 1, 1, 0, 80, 13, 10, 9]⟩).2.2.2.2
    { hasError := false, addressRemote := some "1.1.1.1", addressType := some 1,
      portRemote := some 80, rawDataIndex := some 68, isUDP := some true }
    rfl rfl (by decide)

/-! ## Header decoding (lines 231-300) -/

theorem slice_getElem? (b : List Byte) (s e i : Nat) :
    (slice b s e)[i]? = if s + i < e then b[s + i]? else none := by
  unfold slice
  rw [List.getElem?_drop, List.getElem?_take]

theorem slice_length (b : List Byte) (s e : Nat) :
    (slice b s e).length = min e b.length - s := by
  simp [slice]

theorem uint8At_slice_one (b : List Byte) (s : Nat) :
    uint8At (slice b s (s + 1)) 0 = uint8At b s := by
  simp [uint8At, slice_getElem?]

theorem getUint16_eq_ok (b : List Byte) (off v : Nat) :
    getUint16 b off = .ok v
      ↔ ∃ hi lo : Byte, b[off]? = some hi ∧ b[off + 1]? = some lo ∧ v = 256 * hi.val + lo.val := by
  unfold getUint16
  simp only [List.get?_eq_getElem?]
  cases h1 : b[off]? with
  | none => simp
  | some hi =>
    cases h2 : b[off + 1]? with
    | none => simp
    | some lo =>
      simp only [Except.ok.injEq, Option.some.injEq]
      constructor
      · intro h; exact ⟨hi, lo, rfl, rfl, h.symm⟩
      · rintro ⟨hi', lo', rfl, rfl, h⟩; exact h.symm

theorem getUint16_slice_two (b : List Byte) (p v : Nat) :
    getUint16 (slice b p (p + 2)) 0 = .ok v
      ↔ ∃ hi lo : Byte, b[p]? = some hi ∧ b[p + 1]? = some lo ∧ v = 256 * hi.val + lo.val := by
  rw [getUint16_eq_ok]
  simp [slice_getElem?]

/-- What a successful result of lines 284-300 looks like. -/
theorem headerTail_ok (buf : List Byte) (t : Nat) (u : Bool) (v : List Char) (i l : Nat)
    (r : HeaderResult) (hr : headerTail buf t u v i l = .ok r) (hE : r.hasError = false) :
    v ≠ [] ∧ ∃ hi lo : Byte, buf[i + l]? = some hi ∧ buf[i + l + 1]? = some lo
      ∧ r = { hasError := false, addressRemote := some (String.mk v), addressType := some t,
              portRemote := some (256 * hi.val + lo.val),
              rawDataIndex := some (i + l + 4), isUDP := some u } := by
  unfold headerTail at hr
  by_cases hv : v = []
  · rw [if_pos hv] at hr
    cases hr
    simp at hE
  · rw [if_neg hv] at hr
    refine ⟨hv, ?_⟩
    cases hp : getUint16 (slice buf (i + l) (i + l + 2)) 0 with
    | error e => simp [hp] at hr
    | ok p =>
      obtain ⟨hi, lo, h1, h2, rfl⟩ := (getUint16_slice_two buf (i + l) p).1 hp
      simp only [hp, Except.ok.injEq] at hr
      exact ⟨hi, lo, h1, h2, hr.symm⟩


/-- What a successful result of the header decoding looks like: the command byte is 1
or 3, the address type is 1, 3 or 4, and the result is assembled from the address text
`v`, the address start `i`, the address length `l` and the two port bytes. -/
theorem decodeHeader_ok (buf : List Byte) (r : HeaderResult)
    (hr : decodeHeader buf = .ok r) (hE : r.hasError = false) :
    ∃ (cmd t i l : Nat) (v : List Char) (hi lo : Byte),
      uint8At buf 58 = some cmd ∧ (cmd = 1 ∨ cmd = 3) ∧ uint8At buf 59 = some t
      ∧ ((t = 1 ∧ i = 60 ∧ l = 4
            ∧ v = joinWith '.' ((slice buf 60 64).map (fun b => numberToString 10 b.val)))
          ∨ (t = 3 ∧ i = 61 ∧ uint8At buf 60 = some l
            ∧ v = textDecode (slice buf 61 (61 + l)))
          ∨ (t = 4 ∧ i = 60 ∧ l = 16
            ∧ ∃ gs, readGroups (slice buf 60 76) 0 8 = .ok gs
              ∧ v = joinWith ':' (gs.map (fun g => numberToString 16 g))))
      ∧ v ≠ [] ∧ buf[i + l]? = some hi ∧ buf[i + l + 1]? = some lo
      ∧ r = { hasError := false, addressRemote := some (String.mk v),
              addressType := some t, portRemote := some (256 * hi.val + lo.val),
              rawDataIndex := some (i + l + 4), isUDP := some (decide (cmd = 3)) } := by
  unfold decodeHeader at hr
  simp only [uint8At_slice_one] at hr
  by_cases hc : uint8At buf 58 ≠ some 1 ∧ uint8At buf 58 ≠ some 3
  · rw [if_pos hc] at hr
    cases hr
    simp at hE
  · rw [if_neg hc] at hr
    obtain ⟨cmd, hcmd, hcmd13⟩ : ∃ cmd, uint8At buf 58 = some cmd ∧ (cmd = 1 ∨ cmd = 3) := by
      by_cases h1 : uint8At buf 58 = some 1
      · exact ⟨1, h1, Or.inl rfl⟩
      · by_cases h3 : uint8At buf 58 = some 3
        · exact ⟨3, h3, Or.inr rfl⟩
        · exact absurd ⟨h1, h3⟩ hc
    have hdec : decide (uint8At buf 58 = some 3) = decide (cmd = 3) := by
      simp [hcmd]
    rw [hdec] at hr
    split at hr
    · rename_i ht
      obtain ⟨hv, hi, lo, h1, h2, rfl⟩ := headerTail_ok _ _ _ _ _ _ r hr hE
      exact ⟨cmd, 1, 60, 4, _, hi, lo, hcmd, hcmd13, ht, Or.inl ⟨rfl, rfl, rfl, rfl⟩, hv, h1, h2, rfl⟩
    · rename_i ht
      split at hr
      · obtain ⟨hv, -⟩ := headerTail_ok _ _ _ _ _ _ r hr hE
        exact absurd rfl hv
      · rename_i l hl
        obtain ⟨hv, hi, lo, h1, h2, rfl⟩ := headerTail_ok _ _ _ _ _ _ r hr hE
        exact ⟨cmd, 3, 61, l, _, hi, lo, hcmd, hcmd13, ht, Or.inr (Or.inl ⟨rfl, rfl, hl, rfl⟩),
          hv, h1, h2, rfl⟩
    · rename_i ht
      split at hr
      · cases hr
      · rename_i gs hgs
        obtain ⟨hv, hi, lo, h1, h2, rfl⟩ := headerTail_ok _ _ _ _ _ _ r hr hE
        exact ⟨cmd, 4, 60, 16, _, hi, lo, hcmd, hcmd13, ht,
          Or.inr (Or.inr ⟨rfl, rfl, rfl, gs, hgs, rfl⟩), hv, h1, h2, rfl⟩
    · cases hr
      simp at hE


theorem length_of_getElem?_eq_some (b : List Byte) (p : Nat) (x : Byte)
    (h : b[p]? = some x) : p < b.length := by
  by_contra hlt
  rw [List.getElem?_eq_none (by omega)] at h
  cases h

/-- The payload the dispatch forwards when it starts a relay is the chunk from
`rawDataIndex` on (line 94). -/
theorem writeAfterHeader_payload (r : HeaderResult) (chunk : ArrayBuffer) (i : Nat)
    (hi : r.rawDataIndex = some i)
    (hs : (writeAfterHeader r chunk).startsRelay = true) :
    (writeAfterHeader r chunk).payload = some (sliceFrom chunk.bytes i) := by
  unfold writeAfterHeader at hs ⊢
  by_cases hE : r.hasError = true
  · simp [hE, WriteAction.startsRelay] at hs
  · rw [if_neg hE] at hs ⊢
    by_cases hU : r.isUDP = some true
    · rw [if_pos hU] at hs ⊢
      by_cases h53 : r.portRemote.getD 443 = 53
      · simp [h53, WriteAction.payload, hi]
      · simp [h53, WriteAction.startsRelay] at hs
    · simp [hU, WriteAction.payload, hi]

/-- C5: when the header decoding (lines 231-300) succeeds, `rawDataIndex` is the end of
the address plus 4: 68 for address type 1 (the buffer holds the 4 address bytes and the
port, at least 66 bytes), 80 for address type 4 (at least 78 bytes), and 65 + N for
address type 3, N being the byte at offset 60 and the name the N bytes at offsets 61 to
60 + N; and the payload given to the relay the session starts is the chunk from
`rawDataIndex` to its end. -/
theorem C5_rawDataIndex_after_address_port_reserved (buf : List Byte) (r : HeaderResult)
    (hr : decodeHeader buf = .ok r) (hE : r.hasError = false) :
    ((r.addressType = some 1 ∧ r.rawDataIndex = some 68 ∧ 66 ≤ buf.length
        ∧ (slice buf 60 64).length = 4)
      ∨ (r.addressType = some 4 ∧ r.rawDataIndex = some 80 ∧ 78 ≤ buf.length
        ∧ (slice buf 60 76).length = 16)
      ∨ (∃ N, r.addressType = some 3 ∧ uint8At buf 60 = some N
        ∧ r.rawDataIndex = some (65 + N) ∧ 63 + N ≤ buf.length
        ∧ (slice buf 61 (61 + N)).length = N
        ∧ r.addressRemote = some (String.mk (textDecode (slice buf 61 (61 + N))))))
    ∧ ∃ i, r.rawDataIndex = some i
        ∧ ∀ chunk : ArrayBuffer, chunk.bytes = buf →
            (writeAfterHeader r chunk).startsRelay = true →
            (writeAfterHeader r chunk).payload = some (sliceFrom buf i) := by
  obtain ⟨cmd, t, i, l, v, hi, lo, -, -, -, hcase, -, h1, h2, rfl⟩ := decodeHeader_ok buf r hr hE
  have hlen := length_of_getElem?_eq_some buf _ _ h2
  constructor
  · rcases hcase with ⟨rfl, rfl, rfl, -⟩ | ⟨rfl, rfl, hN, rfl⟩ | ⟨rfl, rfl, rfl, -⟩
    · refine Or.inl ⟨rfl, rfl, by omega, ?_⟩
      rw [slice_length]; omega
    · refine Or.inr (Or.inr ⟨l, rfl, hN, ?_, by omega, ?_, rfl⟩)
      · simp only [Option.some.injEq]; omega
      · rw [slice_length]; omega
    · refine Or.inr (Or.inl ⟨rfl, rfl, by omega, ?_⟩)
      rw [slice_length]; omega
  · refine ⟨i + l + 4, rfl, ?_⟩
    intro chunk hb hs
    rw [← hb]
    exact writeAfterHeader_payload _ chunk _ rfl hs

theorem C5_rawDataIndex_after_address_port_reserved_witness :
    (((HeaderResult.mk false none (some "abc") (some 3) (some 443) (some 68)
          (some false)).addressType = some 1
        ∧ (HeaderResult.mk false none (some "abc") (some 3) (some 443) (some 68)
          (some false)).rawDataIndex = some 68
        ∧ 66 ≤ (headerFrom58 [1, 3, 3, 97, 98, 99, 1, 187, 13, 10, 22, 3]).length
        ∧ (slice (headerFrom58 [1, 3, 3, 97, 98, 99, 1, 187, 13, 10, 22, 3]) 60 64).length = 4)
      ∨ ((HeaderResult.mk false none (some "abc") (some 3) (some 443) (some 68)
          (some false)).addressType = some 4
        ∧ (HeaderResult.mk false none (some "abc") (some 3) (some 443) (some 68)
          (some false)).rawDataIndex = some 80
        ∧ 78 ≤ (headerFrom58 [1, 3, 3, 97, 98, 99, 1, 187, 13, 10, 22, 3]).length
        ∧ (slice (headerFrom58 [1, 3, 3, 97, 98, 99, 1, 187, 13, 10, 22, 3]) 60 76).length = 16)
      ∨ (∃ N, (HeaderResult.mk false none (some "abc") (some 3) (some 443) (some 68)
          (some false)).addressType = some 3
        ∧ uint8At (headerFrom58 [1, 3, 3, 97, 98, 99, 1, 187, 13, 10, 22, 3]) 60 = some N
        ∧ (HeaderResult.mk false none (some "abc") (some 3) (some 443) (some 68)
          (some false)).rawDataIndex = some (65 + N)
        ∧ 63 + N ≤ (headerFrom58 [1, 3, 3, 97, 98, 99, 1, 187, 13, 10, 22, 3]).length
        ∧ (slice (headerFrom58 [1, 3, 3, 97, 98, 99, 1, 187, 13, 10, 22, 3]) 61 (61 + N)).length
            = N
        ∧ (HeaderResult.mk false none (some "abc") (some 3) (some 443) (some 68)
            (some false)).addressRemote
          = some (String.mk (textDecode
              (slice (headerFrom58 [1, 3, 3, 97, 98, 99, 1, 187, 13, 10, 22, 3]) 61 (61 + N))))))
    ∧ ∃ i, (HeaderResult.mk false none (some "abc") (some 3) (some 443) (some 68)
          (some false)).rawDataIndex = some i
        ∧ ∀ chunk : ArrayBuffer,
            chunk.bytes = headerFrom58 [1, 3, 3, 97, 98, 99, 1, 187, 13, 10, 22, 3] →
            (writeAfterHeader (HeaderResult.mk false none (some "abc") (some 3) (some 443)
              (some 68) (some false)) chunk).startsRelay = true →
            (writeAfterHeader (HeaderResult.mk false none (some "abc") (some 3) (some 443)
              (some 68) (some false)) chunk).payload
              = some (sliceFrom (headerFrom58 [1, 3, 3, 97, 98, 99, 1, 187, 13, 10, 22, 3]) i) :=
  C5_rawDataIndex_after_address_port_reserved
    (headerFrom58 [1, 3, 3, 97, 98, 99, 1, 187, 13, 10, 22, 3])
    (HeaderResult.mk false none (some "abc") (some 3) (some 443) (some 68) (some false))
    (by decide) rfl


/-- C6: when the header decoding (lines 231-300) succeeds, `portRemote` is the
big-endian unsigned 16-bit value of the two bytes right after the address:
`portRemote = 256 * b[p] + b[p + 1]`, where `p` is the end of the address (64 for
address type 1, 76 for type 4, 61 + N for type 3) and `rawDataIndex = p + 4`; so
`portRemote ≤ 65535`. -/
theorem C6_portRemote_big_endian (buf : List Byte) (r : HeaderResult)
    (hr : decodeHeader buf = .ok r) (hE : r.hasError = false) :
    ∃ (p : Nat) (hi lo : Byte),
      ((r.addressType = some 1 ∧ p = 64) ∨ (r.addressType = some 4 ∧ p = 76)
        ∨ (∃ N, r.addressType = some 3 ∧ uint8At buf 60 = some N ∧ p = 61 + N))
      ∧ r.rawDataIndex = some (p + 4)
      ∧ buf[p]? = some hi ∧ buf[p + 1]? = some lo
      ∧ r.portRemote = some (256 * hi.val + lo.val)
      ∧ 256 * hi.val + lo.val ≤ 65535 := by
  obtain ⟨cmd, t, i, l, v, hi, lo, -, -, -, hcase, -, h1, h2, rfl⟩ := decodeHeader_ok buf r hr hE
  refine ⟨i + l, hi, lo, ?_, rfl, h1, h2, rfl, ?_⟩
  · rcases hcase with ⟨rfl, rfl, rfl, -⟩ | ⟨rfl, rfl, hN, -⟩ | ⟨rfl, rfl, rfl, -⟩
    · exact Or.inl ⟨rfl, rfl⟩
    · exact Or.inr (Or.inr ⟨l, rfl, hN, rfl⟩)
    · exact Or.inr (Or.inl ⟨rfl, rfl⟩)
  · have := hi.isLt
    have := lo.isLt
    omega

theorem C6_portRemote_big_endian_witness :
    ∃ (p : Nat) (hi lo : Byte),
      (((HeaderResult.mk false none (some "1.1.1.1") (some 1) (some 443) (some 68)
            (some false)).addressType = some 1 ∧ p = 64)
        ∨ ((HeaderResult.mk false none (some "1.1.1.1") (some 1) (some 443) (some 68)
            (some false)).addressType = some 4 ∧ p = 76)
        ∨ (∃ N, (HeaderResult.mk false none (some "1.1.1.1") (some 1) (some 443) (some 68)
            (some false)).addressType = some 3
          ∧ uint8At (scenarioHeader (List.replicate 30 0) [67, 76]) 60 = some N ∧ p = 61 + N))
      ∧ (HeaderResult.mk false none (some "1.1.1.1") (some 1) (some 443) (some 68)
            (some false)).rawDataIndex = some (p + 4)
      ∧ (scenarioHeader (List.replicate 30 0) [67, 76])[p]? = some hi
      ∧ (scenarioHeader (List.replicate 30 0) [67, 76])[p + 1]? = some lo
      ∧ (HeaderResult.mk false none (some "1.1.1.1") (some 1) (some 443) (some 68)
            (some false)).portRemote = some (256 * hi.val + lo.val)
      ∧ 256 * hi.val + lo.val ≤ 65535 :=
  C6_portRemote_big_endian (scenarioHeader (List.replicate 30 0) [67, 76])
    (HeaderResult.mk false none (some "1.1.1.1") (some 1) (some 443) (some 68) (some false))
    (by decide) rfl


/-! ## UDP frames -/

theorem slice_append_mid (pre mid post : List Byte) :
    slice (pre ++ mid ++ post) pre.length (pre.length + mid.length) = mid := by
  unfold slice
  rw [List.append_assoc, List.take_append, List.drop_left, List.take_left]

/-- One iteration of the loop of lines 386-394. -/
theorem transformLoop_succ (chunk : List Byte) (fuel index len : Nat)
    (hlt : index < chunk.length)
    (hlen : getUint16 (slice chunk index (index + 2)) 0 = .ok len) :
    transformLoop chunk (fuel + 1) index
      = { enqueued := slice chunk (index + 2) (index + 2 + len)
            :: (transformLoop chunk fuel (index + 2 + len)).enqueued,
          status := (transformLoop chunk fuel (index + 2 + len)).status } := by
  rw [transformLoop, if_pos hlt]
  simp only [hlen]

/-- The loop stops at the end of the chunk. -/
theorem transformLoop_end (chunk : List Byte) (fuel index : Nat) (hge : chunk.length ≤ index) :
    transformLoop chunk fuel index = { enqueued := [], status := .done } := by
  cases fuel with
  | zero => rw [transformLoop, if_neg (by omega)]
  | succ f => rw [transformLoop, if_neg (by omega)]

/-- The iteration bound `byteLength` is never used up: the loop of lines 386-394 ends,
normally or with the `RangeError` of a truncated length field, on every chunk. -/
theorem transformLoop_status_ne_outOfFuel (chunk : List Byte) (fuel : Nat) :
    ∀ index, chunk.length ≤ index + fuel →
      (transformLoop chunk fuel index).status ≠ .outOfFuel := by
  induction fuel with
  | zero =>
    intro index h
    rw [transformLoop, if_neg (by omega)]
    simp
  | succ f ih =>
    intro index h
    by_cases hlt : index < chunk.length
    · cases hlen : getUint16 (slice chunk index (index + 2)) 0 with
      | error e =>
        rw [transformLoop, if_pos hlt]
        simp [hlen]
      | ok len =>
        rw [transformLoop_succ chunk f index len hlt hlen]
        exact ih _ (by omega)
    · rw [transformLoop_end chunk _ index (by omega)]
      simp

theorem frame_length (d : List Byte) : (frame d).length = d.length + 2 := by
  simp [frame]

theorem frame_eq (d : List Byte) :
    frame d = [Fin.ofNat (d.length / 256), Fin.ofNat (d.length % 256)] ++ d := rfl

/-- The length field of a frame reads back as the length of its data. -/
theorem getUint16_frame (pre d post : List Byte) (hd : d.length < 65536) :
    getUint16 (slice (pre ++ frame d ++ post) pre.length (pre.length + 2)) 0 = .ok d.length := by
  have hs : slice (pre ++ frame d ++ post) pre.length (pre.length + 2)
      = [Fin.ofNat (d.length / 256), Fin.ofNat (d.length % 256)] := by
    have := slice_append_mid pre [Fin.ofNat (d.length / 256), Fin.ofNat (d.length % 256)]
      (d ++ post)
    simpa [frame_eq, List.append_assoc] using this
  rw [hs, getUint16_eq_ok]
  refine ⟨Fin.ofNat (d.length / 256), Fin.ofNat (d.length % 256), rfl, rfl, ?_⟩
  show d.length = 256 * (d.length / 256 % 256) + d.length % 256 % 256
  omega

/-- The data of a frame is what the loop cuts out after its length field. -/
theorem slice_frame_data (pre d post : List Byte) :
    slice (pre ++ frame d ++ post) (pre.length + 2) (pre.length + 2 + d.length) = d := by
  have := slice_append_mid
    (pre ++ [Fin.ofNat (d.length / 256), Fin.ofNat (d.length % 256)]) d post
  simpa [frame_eq, List.append_assoc] using this

/-- The loop started at the beginning of a run of complete frames enqueues their data. -/
theorem transformLoop_frames (frames : List (List Byte))
    (hL : ∀ d ∈ frames, d.length < 65536) :
    ∀ (pre : List Byte) (fuel : Nat), ((frames.map frame).flatten).length ≤ fuel →
      transformLoop (pre ++ (frames.map frame).flatten) fuel pre.length
        = { enqueued := frames, status := .done } := by
  induction frames with
  | nil =>
    intro pre fuel _
    exact transformLoop_end _ _ _ (by simp)
  | cons d ds ih =>
    intro pre fuel hfuel
    have hd : d.length < 65536 := hL d (List.mem_cons_self _ _)
    have hchunk : pre ++ ((d :: ds).map frame).flatten = pre ++ frame d ++ (ds.map frame).flatten := by
      simp [List.append_assoc]
    have hjl : (((d :: ds).map frame).flatten).length
        = d.length + 2 + ((ds.map frame).flatten).length := by
      simp [frame_length]
    obtain ⟨f, rfl⟩ : ∃ f, fuel = f + 1 := ⟨fuel - 1, by omega⟩
    have hlt : pre.length < (pre ++ ((d :: ds).map frame).flatten).length := by
      rw [List.length_append, hjl]; omega
    have hlen := getUint16_frame pre d (ds.map frame).flatten hd
    rw [← hchunk] at hlen
    rw [transformLoop_succ _ f pre.length d.length hlt hlen]
    have hdata := slice_frame_data pre d (ds.map frame).flatten
    rw [← hchunk] at hdata
    have hrec := ih (fun x hx => hL x (List.mem_cons_of_mem _ hx)) (pre ++ frame d) f
      (by omega)
    rw [← hchunk] at hrec
    have hidx : (pre ++ frame d).length = pre.length + 2 + d.length := by
      simp [frame_length]; omega
    rw [hidx] at hrec
    rw [hdata, hrec]

/-- C8: on a chunk that is the concatenation of k ≥ 1 complete frames (a 2-byte
big-endian length followed by exactly that many data bytes), the transform step of
`handleUDPOutBound` ends normally and has enqueued exactly k datagrams: the data of
the frames, in frame order, without the length bytes. The loop ends on every chunk:
its iteration bound is never used up. -/
theorem C8_transform_enqueues_each_frame (frames : List (List Byte))
    (_hk : 1 ≤ frames.length) (hL : ∀ d ∈ frames, d.length < 65536) :
    transform ((frames.map frame).flatten) = { enqueued := frames, status := .done }
    ∧ (transform ((frames.map frame).flatten)).enqueued.length = frames.length
    ∧ (transform ((frames.map frame).flatten)).enqueued.flatten = frames.flatten
    ∧ ∀ chunk : List Byte, (transform chunk).status ≠ .outOfFuel := by
  have h := transformLoop_frames frames hL [] ((frames.map frame).flatten).length (le_refl _)
  have ht : transform ((frames.map frame).flatten)
      = { enqueued := frames, status := .done } := by
    simpa [transform] using h
  rw [ht]
  refine ⟨rfl, rfl, rfl, ?_⟩
  intro chunk
  exact transformLoop_status_ne_outOfFuel chunk chunk.length 0 (by omega)

theorem C8_transform_enqueues_each_frame_witness :
    transform (([[1, 2, 3], [], [9, 8]].map frame).flatten)
      = { enqueued := [[1, 2, 3], [], [9, 8]], status := .done }
    ∧ (transform (([[1, 2, 3], [], [9, 8]].map frame).flatten)).enqueued.length
        = [[1, 2, 3], [], [9, 8]].length
    ∧ (transform (([[1, 2, 3], [], [9, 8]].map frame).flatten)).enqueued.flatten
        = [[1, 2, 3], [], [9, 8]].flatten
    ∧ ∀ chunk : List Byte, (transform chunk).status ≠ .outOfFuel :=
  C8_transform_enqueues_each_frame [[1, 2, 3], [], [9, 8]] (by decide) (by decide)

/-- The message for a DNS answer is built like an inbound frame. -/
theorem dnsMessage_eq_frame (a : List Byte) : dnsMessage a = frame a := by
  unfold dnsMessage udpSizeBuffer frame
  have h1 : a.length / 256 % 256 = a.length / 256 % (255 + 1) := rfl
  have h2 : a.length % 256 = a.length % 256 % (255 + 1) := by omega
  simp only [List.cons_append, List.nil_append, Fin.ofNat, List.cons.injEq, Fin.mk.injEq,
    and_true]
  exact ⟨trivial, h2⟩

/-- For an answer of exactly 65536 bytes the length field written by line 414 is 00 00,
and the demultiplexer cuts an empty datagram out of the message first. -/
theorem transform_dnsMessage_overlong (a : List Byte) (ha : a.length = 65536) :
    dnsMessage a = 0 :: 0 :: a
    ∧ (transform (dnsMessage a)).enqueued.head? = some [] := by
  have hm : dnsMessage a = 0 :: 0 :: a := by
    unfold dnsMessage udpSizeBuffer
    simp only [ha, List.cons_append, List.nil_append]
    rfl
  refine ⟨hm, ?_⟩
  rw [hm]
  unfold transform
  have hl : (0 :: 0 :: a : List Byte).length = (a.length + 1) + 1 := by simp
  rw [hl]
  have hlen : getUint16 (slice (0 :: 0 :: a) 0 (0 + 2)) 0 = .ok 0 := by
    rw [getUint16_eq_ok]
    exact ⟨0, 0, by simp [slice], by simp [slice], rfl⟩
  rw [transformLoop_succ (0 :: 0 :: a) (a.length + 1) 0 0 (by simp) hlen]
  simp [slice]

/-- C9 (as amended): for a DNS-over-HTTPS answer `a` of at most 65535 bytes, the one
message sent on the open upgrade socket is the 2-byte big-endian length of `a`
followed by the bytes of `a`, and the inbound frame demultiplexer applied to that
message yields exactly the single datagram `a`. -/
theorem C9_dns_answer_framed_and_demultiplexed (a : List Byte) (ha : a.length ≤ 65535) :
    dnsWrite 1 a = [dnsMessage a]
    ∧ (∃ hi lo : Byte, 256 * hi.val + lo.val = a.length ∧ dnsMessage a = hi :: lo :: a)
    ∧ transform (dnsMessage a) = { enqueued := [a], status := .done } := by
  refine ⟨rfl, ?_, ?_⟩
  · refine ⟨⟨a.length / 256 % 256, Nat.mod_lt _ (by decide)⟩,
      ⟨a.length % 256, Nat.mod_lt _ (by decide)⟩, ?_, rfl⟩
    show 256 * (a.length / 256 % 256) + a.length % 256 = a.length
    omega
  · rw [dnsMessage_eq_frame a]
    have h := transformLoop_frames [a] (by simpa using (by omega : a.length < 65536)) []
      (([a].map frame).flatten).length (le_refl _)
    simpa [transform] using h

theorem C9_dns_answer_framed_and_demultiplexed_witness :
    dnsWrite 1 [0xAB, 0xCD, 0x81, 0x80] = [dnsMessage [0xAB, 0xCD, 0x81, 0x80]]
    ∧ (∃ hi lo : Byte, 256 * hi.val + lo.val = [(0xAB : Byte), 0xCD, 0x81, 0x80].length
        ∧ dnsMessage [0xAB, 0xCD, 0x81, 0x80] = hi :: lo :: [0xAB, 0xCD, 0x81, 0x80])
    ∧ transform (dnsMessage [0xAB, 0xCD, 0x81, 0x80])
        = { enqueued := [[0xAB, 0xCD, 0x81, 0x80]], status := .done } :=
  C9_dns_answer_framed_and_demultiplexed [0xAB, 0xCD, 0x81, 0x80] (by decide)

/-- C9 (counterexample): for the answer of 65536 zero bytes the message starts with
the length field 00 00, which is not the length of the answer, and the demultiplexer
does not yield the single datagram `a`: the first datagram it enqueues is empty. -/
theorem C9_counterexample_answer_of_65536_bytes :
    dnsWrite 1 (List.replicate 65536 0) = [0 :: 0 :: List.replicate 65536 0]
    ∧ (transform (dnsMessage (List.replicate 65536 0))).enqueued
        ≠ [List.replicate 65536 0] := by
  obtain ⟨hm, hh⟩ := transform_dnsMessage_overlong (List.replicate 65536 0)
    (List.length_replicate _ _)
  refine ⟨?_, ?_⟩
  · show [dnsMessage (List.replicate 65536 0)] = _
    rw [hm]
  · intro heq
    rw [heq, List.head?_cons, Option.some.injEq] at hh
    have hlen := congrArg List.length hh
    rw [List.length_replicate] at hlen
    exact absurd hlen (by decide)


/-! ## Early data -/

theorem toNat_ofNat_of_isValidChar (n : Nat) (h : n.isValidChar) : (Char.ofNat n).toNat = n := by
  unfold Char.ofNat
  rw [dif_pos h]
  rfl

theorem byte_of_char_of_byte (b : Byte) : (Fin.ofNat (Char.ofNat b.val).toNat : Byte) = b := by
  have hb := b.isLt
  rw [toNat_ofNat_of_isValidChar b.val (Or.inl (by omega))]
  apply Fin.ext
  show b.val % 256 = b.val
  omega

theorem list_induction3 {α : Type} {P : List α → Prop} (h0 : P [])
    (h1 : ∀ x, P [x]) (h2 : ∀ x y, P [x, y])
    (h3 : ∀ x y z rest, P rest → P (x :: y :: z :: rest)) : ∀ l, P l := by
  have key : ∀ n : Nat, ∀ l : List α, l.length ≤ n → P l := by
    intro n
    induction n with
    | zero =>
      intro l hl
      cases l with
      | nil => exact h0
      | cons a t => simp at hl
    | succ n ih =>
      intro l hl
      match l, hl with
      | [], _ => exact h0
      | [x], _ => exact h1 x
      | [x, y], _ => exact h2 x y
      | x :: y :: z :: rest, hl =>
        apply h3
        apply ih
        simp only [List.length_cons] at hl
        omega
  intro l
  exact key l.length l (le_refl _)

theorem base64urlEncode_eq (pad : Bool) : ∀ d : List Byte,
    base64urlEncode pad d = (sextets d).map base64urlChar ++ padding pad d.length := by
  apply list_induction3
  · simp [base64urlEncode, sextets, padding]
  · intro x
    cases pad <;> simp [base64urlEncode, sextets, padding]
  · intro x y
    cases pad <;> simp [base64urlEncode, sextets, padding]
  · intro x y z rest ih
    have hp : padding pad (x :: y :: z :: rest).length = padding pad rest.length := by
      simp only [padding, List.length_cons]
      congr 3
      omega
    rw [base64urlEncode, ih, sextets, hp]
    simp

theorem sextets_lt : ∀ d : List Byte, ∀ s ∈ sextets d, s < 64 := by
  apply list_induction3
  · simp [sextets]
  · intro x s hs
    have := x.isLt
    simp only [sextets, List.mem_cons, List.mem_singleton, List.not_mem_nil, or_false] at hs
    omega
  · intro x y s hs
    have := x.isLt
    have := y.isLt
    simp only [sextets, List.mem_cons, List.mem_singleton, List.not_mem_nil, or_false] at hs
    omega
  · intro x y z rest ih s hs
    have := x.isLt
    have := y.isLt
    have := z.isLt
    simp only [sextets, List.mem_cons] at hs
    rcases hs with h | h | h | h | h
    · omega
    · omega
    · omega
    · omega
    · exact ih s h

theorem sextets_length : ∀ d : List Byte,
    (d.length % 3 = 0 → (sextets d).length % 4 = 0)
    ∧ (d.length % 3 = 1 → (sextets d).length % 4 = 2)
    ∧ (d.length % 3 = 2 → (sextets d).length % 4 = 3) := by
  apply list_induction3
  · simp [sextets]
  · intro x; simp [sextets]
  · intro x y; simp [sextets]
  · intro x y z rest ih
    simp only [sextets, List.length_cons]
    omega

theorem decodeSextets_sextets : ∀ d : List Byte,
    decodeSextets (sextets d) = d.map (fun b => b.val) := by
  apply list_induction3
  · simp [sextets, decodeSextets]
  · intro x
    have := x.isLt
    simp only [sextets, decodeSextets, List.map_cons, List.map_nil, List.cons.injEq, and_true]
    omega
  · intro x y
    have := x.isLt
    have := y.isLt
    simp only [sextets, decodeSextets, List.map_cons, List.map_nil, List.cons.injEq, and_true]
    omega
  · intro x y z rest ih
    have := x.isLt
    have := y.isLt
    have := z.isLt
    simp only [sextets, decodeSextets, List.map_cons, List.cons.injEq, ih, and_true]
    omega


theorem base64Index_std (n : Nat) (h : n < 64) :
    base64Index (replaceUrlChar (base64urlChar n)) = some n := by
  have key : ∀ m : Fin 64, base64Index (replaceUrlChar (base64urlChar m.val)) = some m.val := by
    decide
  exact key ⟨n, h⟩

theorem not_whitespace_std (n : Nat) (h : n < 64) :
    isAsciiWhitespace (replaceUrlChar (base64urlChar n)) = false := by
  have key : ∀ m : Fin 64, isAsciiWhitespace (replaceUrlChar (base64urlChar m.val)) = false := by
    decide
  exact key ⟨n, h⟩

theorem ne_pad_std (n : Nat) (h : n < 64) : replaceUrlChar (base64urlChar n) ≠ '=' := by
  have key : ∀ m : Fin 64, replaceUrlChar (base64urlChar m.val) ≠ '=' := by decide
  exact key ⟨n, h⟩

theorem base64Indices_std (l : List Nat) (h : ∀ s ∈ l, s < 64) :
    base64Indices (l.map (fun n => replaceUrlChar (base64urlChar n))) = some l := by
  induction l with
  | nil => rfl
  | cons s t ih =>
    have hs := base64Index_std s (h s (List.mem_cons_self _ _))
    have ht := ih (fun x hx => h x (List.mem_cons_of_mem _ hx))
    simp only [List.map_cons, base64Indices, hs, ht]

theorem stripPadding_of_no_pad (body : List Char) (h : ∀ c ∈ body, c ≠ '=') :
    stripPadding body = body := by
  unfold stripPadding
  rw [if_neg]
  intro hl
  exact h '=' (List.mem_of_getLast?_eq_some hl) rfl

theorem stripPadding_one (body : List Char) (h : ∀ c ∈ body, c ≠ '=') :
    stripPadding (body ++ ['=']) = body := by
  unfold stripPadding
  rw [if_pos (by simp), List.dropLast_concat, if_neg]
  intro hl
  exact h '=' (List.mem_of_getLast?_eq_some hl) rfl

theorem stripPadding_two (body : List Char) :
    stripPadding (body ++ ['=', '=']) = body := by
  have e : body ++ ['=', '='] = (body ++ ['=']) ++ ['='] := by simp
  unfold stripPadding
  rw [e, if_pos (by simp), List.dropLast_concat, if_pos (by simp), List.dropLast_concat]

/-- The function `atob` on base64 characters followed by at most two `=`, the padded
length being a multiple of 4: the padding is removed and the characters are decoded. -/
theorem atob_body_padding (body : List Char) (k : Nat) (hk : k ≤ 2)
    (hws : ∀ c ∈ body, isAsciiWhitespace c = false) (hne : ∀ c ∈ body, c ≠ '=')
    (hlen : body.length % 4 ≠ 1) (hpad : k = 0 ∨ (body.length + k) % 4 = 0)
    (sx : List Nat) (hsx : base64Indices body = some sx) :
    atob (body ++ List.replicate k '=') = .ok ((decodeSextets sx).map Char.ofNat) := by
  have hfilter : (body ++ List.replicate k '=').filter (fun c => !isAsciiWhitespace c)
      = body ++ List.replicate k '=' := by
    rw [List.filter_eq_self]
    intro c hc
    rcases List.mem_append.1 hc with h | h
    · simp [hws c h]
    · rw [(List.mem_replicate.1 h).2]
      decide
  have hstrip : (if (body ++ List.replicate k '=').length % 4 = 0
      then stripPadding (body ++ List.replicate k '=') else body ++ List.replicate k '=')
      = body := by
    have hk3 : k = 0 ∨ k = 1 ∨ k = 2 := by omega
    rcases hk3 with rfl | rfl | rfl
    · simp only [List.replicate, List.append_nil]
      split
      · exact stripPadding_of_no_pad body hne
      · rfl
    · have h0 : (body ++ List.replicate 1 '=').length % 4 = 0 := by
        rcases hpad with h | h
        · omega
        · simpa using h
      rw [if_pos h0]
      exact stripPadding_one body hne
    · have h0 : (body ++ List.replicate 2 '=').length % 4 = 0 := by
        rcases hpad with h | h
        · omega
        · simpa using h
      rw [if_pos h0]
      exact stripPadding_two body
  unfold atob
  simp only [hfilter, hstrip, if_neg hlen, hsx]


theorem sextets_ne_nil : ∀ d : List Byte, d ≠ [] → sextets d ≠ [] := by
  apply list_induction3
  · intro h; exact absurd rfl h
  · intro x _; simp [sextets]
  · intro x y _; simp [sextets]
  · intro x y z rest _ _; simp [sextets]

/-- The two `replace` calls of line 353 turn the base64url encoding into the standard
base64 characters of the same 6-bit values, followed by the same padding. -/
theorem replace_base64urlEncode (pad : Bool) (d : List Byte) :
    ((base64urlEncode pad d).map (fun c => if c = '-' then '+' else c)).map
        (fun c => if c = '_' then '/' else c)
      = (sextets d).map (fun n => replaceUrlChar (base64urlChar n))
          ++ List.replicate (if pad then (3 - d.length % 3) % 3 else 0) '=' := by
  rw [base64urlEncode_eq, List.map_map, List.map_append, List.map_map]
  congr 1
  cases pad
  · simp [padding]
  · simp only [padding, if_true, List.map_replicate]
    rfl

/-- The decoding of line 354-356 undoes the base64url encoding. -/
theorem base64ToArrayBuffer_encode (pad : Bool) (d : List Byte) (hd : d ≠ []) :
    base64ToArrayBuffer (String.mk (base64urlEncode pad d))
      = { earlyData := some d, error := none } := by
  have hne : (String.mk (base64urlEncode pad d)).data ≠ [] := by
    show base64urlEncode pad d ≠ []
    rw [base64urlEncode_eq]
    intro h
    have h1 := (List.append_eq_nil.1 h).1
    exact sextets_ne_nil d hd (List.map_eq_nil_iff.1 h1)
  have hl := sextets_length d
  have hk : (if pad then (3 - d.length % 3) % 3 else 0) ≤ 2 := by
    split <;> omega
  have hatob := atob_body_padding ((sextets d).map (fun n => replaceUrlChar (base64urlChar n)))
    (if pad then (3 - d.length % 3) % 3 else 0) hk
    (by
      intro c hc
      obtain ⟨n, hn, rfl⟩ := List.mem_map.1 hc
      exact not_whitespace_std n (sextets_lt d n hn))
    (by
      intro c hc
      obtain ⟨n, hn, rfl⟩ := List.mem_map.1 hc
      exact ne_pad_std n (sextets_lt d n hn))
    (by rw [List.length_map]; omega)
    (by
      rw [List.length_map]
      cases pad
      · exact Or.inl rfl
      · simp only [if_true]
        omega)
    (sextets d) (base64Indices_std _ (sextets_lt d))
  unfold base64ToArrayBuffer
  rw [if_neg hne]
  show (match atob (((base64urlEncode pad d).map (fun c => if c = '-' then '+' else c)).map
      (fun c => if c = '_' then '/' else c)) with
    | .error e => ({ error := some e } : EarlyData)
    | .ok decode =>
      { earlyData := some (decode.map (fun c : Char => (Fin.ofNat c.toNat : Byte))),
        error := none }) = _
  rw [replace_base64urlEncode, hatob, decodeSextets_sextets]
  simp only [List.map_map]
  congr 2
  conv_rhs => rw [← List.map_id d]
  apply List.map_congr_left
  intro b _
  exact byte_of_char_of_byte b

/-- C10: for every non-empty byte sequence `d`, `base64ToArrayBuffer` applied to the
base64url encoding of `d` (alphabet with `-` and `_`, with or without `=` padding)
returns `error = null` and `earlyData` equal to the bytes of `d`, and the start of the
stream adapter enqueues exactly that chunk; for the empty string it returns
`error = null` and no `earlyData`, and nothing is enqueued. -/
theorem C10_early_data_decodes_base64url (d : List Byte) (hd : d ≠ []) (pad : Bool) :
    base64ToArrayBuffer (String.mk (base64urlEncode pad d))
      = { earlyData := some d, error := none }
    ∧ startEarlyData (String.mk (base64urlEncode pad d)) = [.enqueue d]
    ∧ base64ToArrayBuffer "" = { earlyData := none, error := none }
    ∧ startEarlyData "" = [] := by
  have h := base64ToArrayBuffer_encode pad d hd
  refine ⟨h, ?_, rfl, rfl⟩
  unfold startEarlyData
  rw [h]

theorem C10_early_data_decodes_base64url_witness :
    base64ToArrayBuffer (String.mk (base64urlEncode false [0xfb, 0xff, 0xfe, 0x3e]))
      = { earlyData := some [0xfb, 0xff, 0xfe, 0x3e], error := none }
    ∧ startEarlyData (String.mk (base64urlEncode false [0xfb, 0xff, 0xfe, 0x3e]))
        = [.enqueue [0xfb, 0xff, 0xfe, 0x3e]]
    ∧ base64ToArrayBuffer "" = { earlyData := none, error := none }
    ∧ startEarlyData "" = [] :=
  C10_early_data_decodes_base64url [0xfb, 0xff, 0xfe, 0x3e] (by decide) false

/-! ## Number formatting and `join`, read back -/

theorem digitValue_digitChar (m : Nat) (h : m < 16) : digitValue (Nat.digitChar m) = some m := by
  have key : ∀ k : Fin 16, digitValue (Nat.digitChar k.val) = some k.val := by decide
  exact key ⟨m, h⟩

theorem digitChar_ne_dot (m : Nat) (h : m < 16) : Nat.digitChar m ≠ '.' := by
  have key : ∀ k : Fin 16, Nat.digitChar k.val ≠ '.' := by decide
  exact key ⟨m, h⟩

theorem digitChar_ne_colon (m : Nat) (h : m < 16) : Nat.digitChar m ≠ ':' := by
  have key : ∀ k : Fin 16, Nat.digitChar k.val ≠ ':' := by decide
  exact key ⟨m, h⟩

/-- Reading back the digits written by `toString(radix)`. -/
theorem parseDigits_toDigitsCore (radix : Nat) (h2 : 2 ≤ radix) (h16 : radix ≤ 16) :
    ∀ (fuel n : Nat) (ds : List Char), n < fuel →
      parseDigits radix 0 (Nat.toDigitsCore radix fuel n ds) = parseDigits radix n ds := by
  intro fuel
  induction fuel with
  | zero => intro n ds h; omega
  | succ f ih =>
    intro n ds hn
    have hmod : n % radix < radix := Nat.mod_lt _ (by omega)
    have hdv := digitValue_digitChar (n % radix) (by omega)
    unfold Nat.toDigitsCore
    by_cases h0 : n / radix = 0
    · simp only [h0, if_true]
      have hlt : n < radix := (Nat.div_eq_zero_iff (by omega)).1 h0
      rw [parseDigits, hdv]
      simp only [hmod, if_true, Nat.zero_mul, Nat.zero_add]
      rw [Nat.mod_eq_of_lt hlt]
    · simp only [h0, if_false]
      have hdiv : n / radix < f := by
        have : n / radix < n := Nat.div_lt_self (by
          rcases Nat.eq_zero_or_pos n with h | h
          · rw [h] at h0; simp at h0
          · exact h) (by omega)
        omega
      rw [ih (n / radix) _ hdiv, parseDigits, hdv]
      simp only [hmod, if_true]
      rw [Nat.div_add_mod']

theorem toDigitsCore_ne_nil (radix : Nat) :
    ∀ (fuel n : Nat) (ds : List Char), 0 < fuel → Nat.toDigitsCore radix fuel n ds ≠ [] := by
  intro fuel
  induction fuel with
  | zero => intro n ds h; omega
  | succ f ih =>
    intro n ds _
    unfold Nat.toDigitsCore
    by_cases h0 : n / radix = 0
    · simp [h0]
    · simp only [h0, if_false]
      cases f with
      | zero => simp [Nat.toDigitsCore]
      | succ g => exact ih _ _ (by omega)

theorem mem_toDigitsCore (radix : Nat) (hr : 0 < radix) :
    ∀ (fuel n : Nat) (ds : List Char) (c : Char), c ∈ Nat.toDigitsCore radix fuel n ds →
      c ∈ ds ∨ ∃ m, m < radix ∧ c = Nat.digitChar m := by
  intro fuel
  induction fuel with
  | zero =>
    intro n ds c h
    exact Or.inl (by simpa [Nat.toDigitsCore] using h)
  | succ f ih =>
    intro n ds c h
    unfold Nat.toDigitsCore at h
    by_cases h0 : n / radix = 0
    · simp only [h0, if_true, List.mem_cons] at h
      rcases h with h | h
      · exact Or.inr ⟨n % radix, Nat.mod_lt _ hr, h⟩
      · exact Or.inl h
    · simp only [h0, if_false] at h
      rcases ih _ _ c h with h | h
      · rcases List.mem_cons.1 h with h | h
        · exact Or.inr ⟨n % radix, Nat.mod_lt _ hr, h⟩
        · exact Or.inl h
      · exact Or.inr h

theorem parseNat_numberToString (radix : Nat) (h2 : 2 ≤ radix) (h16 : radix ≤ 16) (n : Nat) :
    parseNat radix (numberToString radix n) = some n := by
  unfold parseNat numberToString Nat.toDigits
  rw [if_neg (toDigitsCore_ne_nil radix _ _ _ (by omega)),
    parseDigits_toDigitsCore radix h2 h16 _ _ _ (by omega)]
  rfl

theorem mem_numberToString (radix : Nat) (hr : 0 < radix) (n : Nat) (c : Char)
    (h : c ∈ numberToString radix n) : ∃ m, m < radix ∧ c = Nat.digitChar m := by
  rcases mem_toDigitsCore radix hr _ _ _ c h with h | h
  · simp at h
  · exact h

theorem parseAll_numberToString (radix : Nat) (h2 : 2 ≤ radix) (h16 : radix ≤ 16) :
    ∀ ns : List Nat, parseAll radix (ns.map (numberToString radix)) = some ns := by
  intro ns
  induction ns with
  | nil => rfl
  | cons n t ih =>
    simp only [List.map_cons, parseAll, parseNat_numberToString radix h2 h16 n, ih]

theorem splitOn_of_not_mem (sep : Char) : ∀ p : List Char, sep ∉ p → splitOn sep p = [p] := by
  intro p
  induction p with
  | nil => intro _; rfl
  | cons c t ih =>
    intro h
    have hc : c ≠ sep := fun e => h (by simp [e])
    have ht : sep ∉ t := fun e => h (List.mem_cons_of_mem _ e)
    rw [splitOn, if_neg hc, ih ht]

theorem splitOn_append_sep (sep : Char) (rest : List Char) :
    ∀ p : List Char, sep ∉ p → splitOn sep (p ++ sep :: rest) = p :: splitOn sep rest := by
  intro p
  induction p with
  | nil => intro _; simp [splitOn]
  | cons c t ih =>
    intro h
    have hc : c ≠ sep := fun e => h (by simp [e])
    have ht : sep ∉ t := fun e => h (List.mem_cons_of_mem _ e)
    rw [List.cons_append, splitOn, if_neg hc, ih ht]

/-- Splitting undoes `join` when no element contains the separator. -/
theorem splitOn_joinWith (sep : Char) :
    ∀ (p : List Char) (ps : List (List Char)), (∀ q ∈ p :: ps, sep ∉ q) →
      splitOn sep (joinWith sep (p :: ps)) = p :: ps := by
  intro p ps
  induction ps generalizing p with
  | nil =>
    intro h
    exact splitOn_of_not_mem sep p (h p (List.mem_cons_self _ _))
  | cons q t ih =>
    intro h
    rw [joinWith, splitOn_append_sep sep _ p (h p (List.mem_cons_self _ _)),
      ih q (fun x hx => h x (List.mem_cons_of_mem _ hx))]


/-! ## `TextDecoder` on well-formed UTF-8 -/

theorem byte_val_ofNat (x : Nat) (h : x < 256) : (Fin.ofNat x : Byte).val = x :=
  Nat.mod_eq_of_lt h

theorem char_toNat_valid (c : Char) :
    c.toNat < 0xD800 ∨ (0xDFFF < c.toNat ∧ c.toNat < 0x110000) := c.valid

theorem utf8Run_cons (st : Utf8State) (b : Byte) (rest : List Byte) :
    utf8Run st (b :: rest) = (utf8Handle st b.val).2 ++ utf8Run (utf8Handle st b.val).1 rest :=
  rfl

theorem utf8Handle_ascii (n : Nat) (h : n ≤ 0x7F) :
    utf8Handle Utf8State.init n = (Utf8State.init, [Char.ofNat n]) := by
  rw [utf8Handle, if_pos (show Utf8State.init.bytesNeeded = 0 from rfl), utf8Lead, if_pos h]

theorem utf8Handle_lead2 (b : Nat) (h1 : 0xC2 ≤ b) (h2 : b ≤ 0xDF) :
    utf8Handle Utf8State.init b
      = ({ codePoint := b % 32, bytesSeen := 0, bytesNeeded := 1, lower := 0x80, upper := 0xBF },
          []) := by
  rw [utf8Handle, if_pos (show Utf8State.init.bytesNeeded = 0 from rfl), utf8Lead, if_neg (by omega), if_pos ⟨h1, h2⟩]
  rfl

theorem utf8Handle_lead3 (b : Nat) (h1 : 0xE0 ≤ b) (h2 : b ≤ 0xEF) :
    utf8Handle Utf8State.init b
      = ({ codePoint := b % 16, bytesSeen := 0, bytesNeeded := 2,
           lower := if b = 0xE0 then 0xA0 else 0x80,
           upper := if b = 0xED then 0x9F else 0xBF }, []) := by
  rw [utf8Handle, if_pos (show Utf8State.init.bytesNeeded = 0 from rfl), utf8Lead, if_neg (by omega), if_neg (by omega), if_pos ⟨h1, h2⟩]

theorem utf8Handle_lead4 (b : Nat) (h1 : 0xF0 ≤ b) (h2 : b ≤ 0xF4) :
    utf8Handle Utf8State.init b
      = ({ codePoint := b % 8, bytesSeen := 0, bytesNeeded := 3,
           lower := if b = 0xF0 then 0x90 else 0x80,
           upper := if b = 0xF4 then 0x8F else 0xBF }, []) := by
  rw [utf8Handle, if_pos (show Utf8State.init.bytesNeeded = 0 from rfl), utf8Lead, if_neg (by omega), if_neg (by omega),
    if_neg (by omega), if_pos ⟨h1, h2⟩]

theorem utf8Handle_continue (cp seen needed lo up b : Nat) (hn : needed ≠ 0)
    (hlo : lo ≤ b) (hup : b ≤ up) (hs : seen + 1 ≠ needed) :
    utf8Handle { codePoint := cp, bytesSeen := seen, bytesNeeded := needed,
                 lower := lo, upper := up } b
      = ({ codePoint := cp * 64 + b % 64, bytesSeen := seen + 1, bytesNeeded := needed,
           lower := 0x80, upper := 0xBF }, []) := by
  rw [utf8Handle, if_neg hn, if_neg (by simp only; omega)]
  simp only [hs, ne_eq, not_false_eq_true, if_true]

theorem utf8Handle_last (cp seen needed lo up b : Nat) (hn : needed ≠ 0)
    (hlo : lo ≤ b) (hup : b ≤ up) (hs : seen + 1 = needed) :
    utf8Handle { codePoint := cp, bytesSeen := seen, bytesNeeded := needed,
                 lower := lo, upper := up } b
      = (Utf8State.init, [Char.ofNat (cp * 64 + b % 64)]) := by
  rw [utf8Handle, if_neg hn, if_neg (by simp only; omega)]
  simp only [hs, ne_eq, not_true_eq_false, if_false]

/-- The decoder reads the UTF-8 bytes of a character back as that character. -/
theorem utf8Run_encodeChar (c : Char) (rest : List Byte) :
    utf8Run Utf8State.init (utf8EncodeChar c ++ rest) = c :: utf8Run Utf8State.init rest := by
  have hv := char_toNat_valid c
  have hc : Char.ofNat c.toNat = c := Char.ofNat_toNat c
  unfold utf8EncodeChar
  by_cases h1 : c.toNat < 0x80
  · rw [if_pos h1, List.singleton_append, utf8Run_cons, byte_val_ofNat _ (by omega),
      utf8Handle_ascii _ (by omega), hc]
    rfl
  · rw [if_neg h1]
    by_cases h2 : c.toNat < 0x800
    · rw [if_pos h2]
      simp only [List.cons_append, List.nil_append]
      rw [utf8Run_cons, byte_val_ofNat _ (by omega), utf8Handle_lead2 _ (by omega) (by omega),
        utf8Run_cons, byte_val_ofNat _ (by omega),
        utf8Handle_last _ _ _ _ _ _ (by decide) (by omega) (by omega) rfl]
      have e : (0xC0 + c.toNat / 64) % 32 * 64 + (0x80 + c.toNat % 64) % 64 = c.toNat := by
        omega
      rw [e, hc]
      rfl
    · rw [if_neg h2]
      by_cases h3 : c.toNat < 0x10000
      · rw [if_pos h3]
        simp only [List.cons_append, List.nil_append]
        rw [utf8Run_cons, byte_val_ofNat _ (by omega),
          utf8Handle_lead3 _ (by omega) (by omega),
          utf8Run_cons, byte_val_ofNat _ (by omega),
          utf8Handle_continue _ _ _ _ _ _ (by decide) (by split <;> omega)
            (by split <;> omega) (by decide),
          utf8Run_cons, byte_val_ofNat _ (by omega),
          utf8Handle_last _ _ _ _ _ _ (by decide) (by omega) (by omega) rfl]
        have e : ((0xE0 + c.toNat / 4096) % 16 * 64 + (0x80 + c.toNat / 64 % 64) % 64) * 64
            + (0x80 + c.toNat % 64) % 64 = c.toNat := by
          omega
        rw [e, hc]
        rfl
      · rw [if_neg h3]
        simp only [List.cons_append, List.nil_append]
        rw [utf8Run_cons, byte_val_ofNat _ (by omega),
          utf8Handle_lead4 _ (by omega) (by omega),
          utf8Run_cons, byte_val_ofNat _ (by omega),
          utf8Handle_continue _ _ _ _ _ _ (by decide) (by split <;> omega)
            (by split <;> omega) (by decide),
          utf8Run_cons, byte_val_ofNat _ (by omega),
          utf8Handle_continue _ _ _ _ _ _ (by decide) (by omega) (by omega) (by decide),
          utf8Run_cons, byte_val_ofNat _ (by omega),
          utf8Handle_last _ _ _ _ _ _ (by decide) (by omega) (by omega) rfl]
        have e : (((0xF0 + c.toNat / 262144) % 8 * 64 + (0x80 + c.toNat / 4096 % 64) % 64) * 64
            + (0x80 + c.toNat / 64 % 64) % 64) * 64 + (0x80 + c.toNat % 64) % 64
            = c.toNat := by
          omega
        rw [e, hc]
        rfl

/-- The decoder run from its initial state undoes the UTF-8 encoding. -/
theorem utf8Run_utf8Encode : ∀ cs : List Char, utf8Run Utf8State.init (utf8Encode cs) = cs := by
  intro cs
  induction cs with
  | nil => rfl
  | cons c t ih => rw [utf8Encode, utf8Run_encodeChar, ih]


theorem byte_ofNat_eq (x y : Nat) (hx : x < 256) (h : (Fin.ofNat x : Byte) = Fin.ofNat y)
    (hy : y < 256) : x = y := by
  have h' := congrArg Fin.val h
  rw [byte_val_ofNat x hx, byte_val_ofNat y hy] at h'
  exact h'

/-- Only the character U+FEFF has UTF-8 bytes that begin with EF BB BF. -/
theorem toNat_of_utf8EncodeChar_bom (c : Char) (t rest : List Byte)
    (h : utf8EncodeChar c ++ t = 0xEF :: 0xBB :: 0xBF :: rest) : c.toNat = 0xFEFF := by
  have hv := char_toNat_valid c
  unfold utf8EncodeChar at h
  by_cases h1 : c.toNat < 0x80
  · rw [if_pos h1] at h
    simp only [List.cons_append, List.nil_append, List.cons.injEq] at h
    have := byte_ofNat_eq _ 0xEF (by omega) h.1 (by decide)
    omega
  · rw [if_neg h1] at h
    by_cases h2 : c.toNat < 0x800
    · rw [if_pos h2] at h
      simp only [List.cons_append, List.nil_append, List.cons.injEq] at h
      have := byte_ofNat_eq _ 0xEF (by omega) h.1 (by decide)
      omega
    · rw [if_neg h2] at h
      by_cases h3 : c.toNat < 0x10000
      · rw [if_pos h3] at h
        simp only [List.cons_append, List.nil_append, List.cons.injEq] at h
        have e1 := byte_ofNat_eq _ 0xEF (by omega) h.1 (by decide)
        have e2 := byte_ofNat_eq _ 0xBB (by omega) h.2.1 (by decide)
        have e3 := byte_ofNat_eq _ 0xBF (by omega) h.2.2.1 (by decide)
        omega
      · rw [if_neg h3] at h
        simp only [List.cons_append, List.nil_append, List.cons.injEq] at h
        have := byte_ofNat_eq _ 0xEF (by omega) h.1 (by decide)
        omega

/-- The call `new TextDecoder().decode` undoes the UTF-8 encoding of a string that does
not begin with the byte order mark. -/
theorem textDecode_utf8Encode (cs : List Char) (h : cs.head? ≠ some byteOrderMark) :
    textDecode (utf8Encode cs) = cs := by
  unfold textDecode
  split
  · rename_i rest heq
    exfalso
    cases cs with
    | nil => simp [utf8Encode] at heq
    | cons c t =>
      rw [utf8Encode] at heq
      have hn := toNat_of_utf8EncodeChar_bom c _ rest heq
      apply h
      have hc : Char.ofNat c.toNat = c := Char.ofNat_toNat c
      rw [hn] at hc
      rw [List.head?_cons, ← hc]
      rfl
  · exact utf8Run_utf8Encode cs


/-! ## More on `slice` -/

theorem slice_split (l : List Byte) (a b c : Nat) (hab : a ≤ b) (hbc : b ≤ c) :
    slice l a c = slice l a b ++ slice l b c := by
  apply List.ext_getElem?
  intro i
  rw [slice_getElem?]
  by_cases hi : i < (slice l a b).length
  · rw [List.getElem?_append_left hi, slice_getElem?]
    rw [slice_length] at hi
    rw [if_pos (by omega), if_pos (by omega)]
  · rw [List.getElem?_append_right (by omega), slice_getElem?]
    rw [slice_length] at hi ⊢
    by_cases hl : l.length ≤ b
    · have h1 : l[a + i]? = none := List.getElem?_eq_none (by omega)
      have h2 : l[b + (i - (min b l.length - a))]? = none := List.getElem?_eq_none (by omega)
      rw [h1, h2]
      simp
    · have e : b + (i - (min b l.length - a)) = a + i := by omega
      rw [e]

theorem slice_one (l : List Byte) (a : Nat) (x : Byte) (h : l[a]? = some x) :
    slice l a (a + 1) = [x] := by
  apply List.ext_getElem?
  intro i
  rw [slice_getElem?]
  cases i with
  | zero => simpa using h
  | succ j => simp

theorem slice_two (l : List Byte) (a : Nat) (x y : Byte) (h1 : l[a]? = some x)
    (h2 : l[a + 1]? = some y) : slice l a (a + 2) = [x, y] := by
  rw [slice_split l a (a + 1) (a + 2) (by omega) (by omega), slice_one l a x h1,
    slice_one l (a + 1) y h2]
  rfl

theorem slice_slice (l : List Byte) (s e a b : Nat) (hs : s ≤ a) (he : b ≤ e) :
    slice (slice l s e) (a - s) (b - s) = slice l a b := by
  apply List.ext_getElem?
  intro i
  rw [slice_getElem?, slice_getElem?, slice_getElem?]
  by_cases h : a + i < b
  · rw [if_pos (by omega), if_pos (by omega), if_pos h]
    congr 1
    omega
  · rw [if_neg (by omega), if_neg h]

/-- Buffers that agree on a range agree on every range inside it. -/
theorem slice_congr (l l' : List Byte) (s e a b : Nat) (h : slice l' s e = slice l s e)
    (hs : s ≤ a) (he : b ≤ e) : slice l' a b = slice l a b := by
  rw [← slice_slice l' s e a b hs he, ← slice_slice l s e a b hs he, h]

theorem getElem?_congr (l l' : List Byte) (s e a : Nat) (h : slice l' s e = slice l s e)
    (hs : s ≤ a) (he : a < e) : l'[a]? = l[a]? := by
  have h1 := slice_getElem? l' s e (a - s)
  have h2 := slice_getElem? l s e (a - s)
  rw [if_pos (by omega)] at h1 h2
  have e1 : s + (a - s) = a := by omega
  rw [e1] at h1 h2
  rw [← h1, ← h2, h]

/-! ## The IPv6 groups -/

theorem uint16Bytes_eq (hi lo : Byte) : uint16Bytes (256 * hi.val + lo.val) = [hi, lo] := by
  have h1 := hi.isLt
  have h2 := lo.isLt
  unfold uint16Bytes
  have e1 : (Fin.ofNat ((256 * hi.val + lo.val) / 256) : Byte) = hi := by
    apply Fin.ext
    show (256 * hi.val + lo.val) / 256 % 256 = hi.val
    omega
  have e2 : (Fin.ofNat ((256 * hi.val + lo.val) % 256) : Byte) = lo := by
    apply Fin.ext
    show (256 * hi.val + lo.val) % 256 % 256 = lo.val
    omega
  rw [e1, e2]

/-- The groups read by lines 273-275 are the big-endian pairs of the view. -/
theorem readGroups_ok (view : List Byte) :
    ∀ (n i : Nat) (gs : List Nat), readGroups view i n = .ok gs →
      groupBytes gs = slice view (i * 2) (i * 2 + n * 2) ∧ gs.length = n
        ∧ ∀ g ∈ gs, g < 65536 := by
  intro n
  induction n with
  | zero =>
    intro i gs h
    rw [readGroups] at h
    cases h
    refine ⟨?_, rfl, by simp⟩
    simp [groupBytes, slice]
  | succ m ih =>
    intro i gs h
    rw [readGroups] at h
    cases hg : getUint16 view (i * 2) with
    | error e => simp [hg] at h
    | ok g =>
      cases hrest : readGroups view (i + 1) m with
      | error e => simp [hg, hrest] at h
      | ok gs' =>
        simp only [hg, hrest, Except.ok.injEq] at h
        subst h
        obtain ⟨hi, lo, h1, h2, rfl⟩ := (getUint16_eq_ok view (i * 2) g).1 hg
        obtain ⟨hb, hl, hlt⟩ := ih (i + 1) gs' hrest
        refine ⟨?_, by simp [hl], ?_⟩
        · rw [groupBytes, uint16Bytes_eq, hb,
            slice_split view (i * 2) (i * 2 + 2) (i * 2 + (m + 1) * 2) (by omega) (by omega),
            slice_two view (i * 2) hi lo h1 h2]
          congr 2 <;> omega
        · intro x hx
          rcases List.mem_cons.1 hx with rfl | hx
          · have := hi.isLt
            have := lo.isLt
            omega
          · exact hlt x hx


/-! ## Decoding, re-encoding, decoding again -/

theorem splitOn_joinWith_of_ne_nil (sep : Char) (parts : List (List Char)) (hne : parts ≠ [])
    (h : ∀ q ∈ parts, sep ∉ q) : splitOn sep (joinWith sep parts) = parts := by
  cases parts with
  | nil => exact absurd rfl hne
  | cons p ps => exact splitOn_joinWith sep p ps h

theorem uint8At_eq_some (buf : List Byte) (a t : Nat) (h : uint8At buf a = some t) :
    ∃ b : Byte, buf[a]? = some b ∧ b.val = t := by
  unfold uint8At at h
  rw [List.get?_eq_getElem?] at h
  cases hb : buf[a]? with
  | none => simp [hb] at h
  | some b =>
    simp only [hb, Option.map_some', Option.some.injEq] at h
    exact ⟨b, rfl, h⟩

theorem map_ofNat_val (l : List Byte) :
    (l.map (fun b => b.val)).map (fun n => (Fin.ofNat n : Byte)) = l := by
  rw [List.map_map]
  conv_rhs => rw [← List.map_id l]
  apply List.map_congr_left
  intro b _
  apply Fin.ext
  exact Nat.mod_eq_of_lt b.isLt

/-- Re-encoding the dotted quad written by lines 254-256 gives back the 4 address bytes. -/
theorem encodeAddress_ipv4 (addr : List Byte) (hlen : addr.length = 4) (hi lo : Byte) :
    encodeAddress 1 (joinWith '.' (addr.map (fun b => numberToString 10 b.val)))
        (256 * hi.val + lo.val)
      = some (1 :: addr ++ [hi, lo]) := by
  have hp : 256 * hi.val + lo.val < 65536 := by
    have := hi.isLt
    have := lo.isLt
    omega
  have hparts : addr.map (fun b => numberToString 10 b.val)
      = (addr.map (fun b => b.val)).map (numberToString 10) := by
    rw [List.map_map]
    rfl
  have hsplit : splitOn '.' (joinWith '.' (addr.map (fun b => numberToString 10 b.val)))
      = (addr.map (fun b => b.val)).map (numberToString 10) := by
    rw [hparts]
    apply splitOn_joinWith_of_ne_nil
    · intro h
      have := congrArg List.length h
      simp [hlen] at this
    · intro q hq hmem
      obtain ⟨n, -, rfl⟩ := List.mem_map.1 hq
      obtain ⟨m, hm, hc⟩ := mem_numberToString 10 (by decide) n '.' hmem
      exact digitChar_ne_dot m (by omega) hc.symm
  have hall : (addr.map (fun b => b.val)).length = 4
      ∧ ∀ n ∈ addr.map (fun b => b.val), n < 256 := by
    refine ⟨by simp [hlen], ?_⟩
    intro n hn
    obtain ⟨b, -, rfl⟩ := List.mem_map.1 hn
    exact b.isLt
  unfold encodeAddress
  rw [if_neg (by omega)]
  simp only [hsplit, parseAll_numberToString 10 (by decide) (by decide)]
  rw [if_pos hall, map_ofNat_val, uint16Bytes_eq]

/-- Re-encoding the colon-separated groups written by lines 272-276 gives back the 16
address bytes. -/
theorem encodeAddress_ipv6 (view : List Byte) (gs : List Nat)
    (hgs : readGroups view 0 8 = .ok gs) (hlen : view.length ≤ 16) (hi lo : Byte) :
    encodeAddress 4 (joinWith ':' (gs.map (fun g => numberToString 16 g)))
        (256 * hi.val + lo.val)
      = some (4 :: view ++ [hi, lo]) := by
  have hp : 256 * hi.val + lo.val < 65536 := by
    have := hi.isLt
    have := lo.isLt
    omega
  obtain ⟨hb, hl, hlt⟩ := readGroups_ok view 8 0 gs hgs
  have hview : groupBytes gs = view := by
    rw [hb]
    unfold slice
    simp only [Nat.zero_mul, Nat.zero_add, List.drop_zero]
    exact List.take_of_length_le (by omega)
  have hsplit : splitOn ':' (joinWith ':' (gs.map (fun g => numberToString 16 g)))
      = gs.map (numberToString 16) := by
    apply splitOn_joinWith_of_ne_nil
    · intro h
      have := congrArg List.length h
      simp [hl] at this
    · intro q hq hmem
      obtain ⟨n, -, rfl⟩ := List.mem_map.1 hq
      obtain ⟨m, hm, hc⟩ := mem_numberToString 16 (by decide) n ':' hmem
      exact digitChar_ne_colon m hm hc.symm
  unfold encodeAddress
  rw [if_neg (by omega)]
  simp only [hsplit, parseAll_numberToString 16 (by decide) (by decide)]
  rw [if_pos ⟨hl, hlt⟩, hview, uint16Bytes_eq]

/-- Re-encoding a name gives the length byte, the UTF-8 bytes and the port. -/
theorem encodeAddress_name (cs : List Char) (lenByte hi lo : Byte)
    (hlen : (utf8Encode cs).length = lenByte.val) :
    encodeAddress 3 cs (256 * hi.val + lo.val)
      = some (3 :: lenByte :: utf8Encode cs ++ [hi, lo]) := by
  have hp : 256 * hi.val + lo.val < 65536 := by
    have := hi.isLt
    have := lo.isLt
    omega
  have hN : (Fin.ofNat (utf8Encode cs).length : Byte) = lenByte := by
    apply Fin.ext
    rw [hlen]
    exact Nat.mod_eq_of_lt lenByte.isLt
  unfold encodeAddress
  rw [if_neg (by omega)]
  simp only
  rw [if_pos (by rw [hlen]; exact lenByte.isLt), hN, uint16Bytes_eq]


/-- Lines 284-300 succeed when the address text is not empty and both port bytes are
inside the buffer. -/
theorem headerTail_of (buf : List Byte) (t : Nat) (u : Bool) (v : List Char) (i l : Nat)
    (hi lo : Byte) (hv : v ≠ []) (h1 : buf[i + l]? = some hi) (h2 : buf[i + l + 1]? = some lo) :
    headerTail buf t u v i l
      = .ok { hasError := false, addressRemote := some (String.mk v), addressType := some t,
              portRemote := some (256 * hi.val + lo.val),
              rawDataIndex := some (i + l + 4), isUDP := some u } := by
  have hp : getUint16 (slice buf (i + l) (i + l + 2)) 0 = .ok (256 * hi.val + lo.val) :=
    (getUint16_slice_two buf (i + l) _).2 ⟨hi, lo, h1, h2, rfl⟩
  unfold headerTail
  rw [if_neg hv]
  simp only [hp]

/-- The converse of `decodeHeader_ok`: a buffer with command byte 1 or 3, address type
1, 3 or 4, a non-empty address text and both port bytes decodes successfully. -/
theorem decodeHeader_of (buf : List Byte) (cmd t i l : Nat) (v : List Char) (hi lo : Byte)
    (hcmd : uint8At buf 58 = some cmd) (h13 : cmd = 1 ∨ cmd = 3)
    (ht : uint8At buf 59 = some t)
    (hcase : (t = 1 ∧ i = 60 ∧ l = 4
          ∧ v = joinWith '.' ((slice buf 60 64).map (fun b => numberToString 10 b.val)))
        ∨ (t = 3 ∧ i = 61 ∧ uint8At buf 60 = some l
          ∧ v = textDecode (slice buf 61 (61 + l)))
        ∨ (t = 4 ∧ i = 60 ∧ l = 16
          ∧ ∃ gs, readGroups (slice buf 60 76) 0 8 = .ok gs
            ∧ v = joinWith ':' (gs.map (fun g => numberToString 16 g))))
    (hv : v ≠ []) (h1 : buf[i + l]? = some hi) (h2 : buf[i + l + 1]? = some lo) :
    decodeHeader buf
      = .ok { hasError := false, addressRemote := some (String.mk v),
              addressType := some t, portRemote := some (256 * hi.val + lo.val),
              rawDataIndex := some (i + l + 4), isUDP := some (decide (cmd = 3)) } := by
  have hc : ¬ (uint8At buf 58 ≠ some 1 ∧ uint8At buf 58 ≠ some 3) := by
    rw [hcmd]
    rcases h13 with rfl | rfl <;> simp
  have hdec : decide (uint8At buf 58 = some 3) = decide (cmd = 3) := by
    simp [hcmd]
  unfold decodeHeader
  simp only [uint8At_slice_one]
  rw [if_neg hc, hdec]
  rcases hcase with ⟨rfl, rfl, rfl, rfl⟩ | ⟨rfl, rfl, hN, rfl⟩ | ⟨rfl, rfl, rfl, gs, hgs, rfl⟩
  · simp only [ht]
    exact headerTail_of buf 1 _ _ 60 4 hi lo hv h1 h2
  · simp only [ht, hN]
    exact headerTail_of buf 3 _ _ 61 l hi lo hv h1 h2
  · simp only [ht, hgs]
    exact headerTail_of buf 4 _ _ 60 16 hi lo hv h1 h2


theorem uint8At_congr (l l' : List Byte) (s e a : Nat) (h : slice l' s e = slice l s e)
    (hs : s ≤ a) (he : a < e) : uint8At l' a = uint8At l a := by
  unfold uint8At
  rw [List.get?_eq_getElem?, List.get?_eq_getElem?, getElem?_congr l l' s e a h hs he]

/-- A buffer that carries the same bytes from the address type to the port, after a
command byte 1 or 3, decodes to the same address type, address text and port. -/
theorem decodeHeader_again (buf buf' : List Byte) (cmd' t i l : Nat) (v : List Char)
    (hi lo : Byte) (hcmd' : uint8At buf' 58 = some cmd') (h13 : cmd' = 1 ∨ cmd' = 3)
    (ht : uint8At buf 59 = some t)
    (hcase : (t = 1 ∧ i = 60 ∧ l = 4
          ∧ v = joinWith '.' ((slice buf 60 64).map (fun b => numberToString 10 b.val)))
        ∨ (t = 3 ∧ i = 61 ∧ uint8At buf 60 = some l
          ∧ v = textDecode (slice buf 61 (61 + l)))
        ∨ (t = 4 ∧ i = 60 ∧ l = 16
          ∧ ∃ gs, readGroups (slice buf 60 76) 0 8 = .ok gs
            ∧ v = joinWith ':' (gs.map (fun g => numberToString 16 g))))
    (hv : v ≠ []) (h1 : buf[i + l]? = some hi) (h2 : buf[i + l + 1]? = some lo)
    (hs : slice buf' 59 (i + l + 2) = slice buf 59 (i + l + 2)) :
    decodeHeader buf'
      = .ok { hasError := false, addressRemote := some (String.mk v),
              addressType := some t, portRemote := some (256 * hi.val + lo.val),
              rawDataIndex := some (i + l + 4), isUDP := some (decide (cmd' = 3)) } := by
  have hi60 : 60 ≤ i := by
    rcases hcase with ⟨-, rfl, -⟩ | ⟨-, rfl, -⟩ | ⟨-, rfl, -⟩ <;> omega
  have ht' : uint8At buf' 59 = some t := by
    rw [uint8At_congr buf buf' 59 (i + l + 2) 59 hs (by omega) (by omega)]
    exact ht
  have h1' : buf'[i + l]? = some hi := by
    rw [getElem?_congr buf buf' 59 (i + l + 2) (i + l) hs (by omega) (by omega)]
    exact h1
  have h2' : buf'[i + l + 1]? = some lo := by
    rw [getElem?_congr buf buf' 59 (i + l + 2) (i + l + 1) hs (by omega) (by omega)]
    exact h2
  refine decodeHeader_of buf' cmd' t i l v hi lo hcmd' h13 ht' ?_ hv h1' h2'
  rcases hcase with ⟨rfl, rfl, rfl, hv1⟩ | ⟨rfl, rfl, hN, hv3⟩ | ⟨rfl, rfl, rfl, gs, hgs, hv4⟩
  · refine Or.inl ⟨rfl, rfl, rfl, ?_⟩
    rw [slice_congr buf buf' 59 (60 + 4 + 2) 60 64 hs (by omega) (by omega)]
    exact hv1
  · refine Or.inr (Or.inl ⟨rfl, rfl, ?_, ?_⟩)
    · rw [uint8At_congr buf buf' 59 (61 + l + 2) 60 hs (by omega) (by omega)]
      exact hN
    · rw [slice_congr buf buf' 59 (61 + l + 2) 61 (61 + l) hs (by omega) (by omega)]
      exact hv3
  · refine Or.inr (Or.inr ⟨rfl, rfl, rfl, gs, ?_, hv4⟩)
    rw [slice_congr buf buf' 59 (60 + 16 + 2) 60 76 hs (by omega) (by omega)]
    exact hgs

/-- What the decoding accepted, written back in the wire format, is the byte range
from the address type to the port (under the condition on names of C7). -/
theorem encodeAddress_decoded (buf : List Byte) (t i l : Nat) (v : List Char) (hi lo : Byte)
    (ht : uint8At buf 59 = some t)
    (hcase : (t = 1 ∧ i = 60 ∧ l = 4
          ∧ v = joinWith '.' ((slice buf 60 64).map (fun b => numberToString 10 b.val)))
        ∨ (t = 3 ∧ i = 61 ∧ uint8At buf 60 = some l
          ∧ v = textDecode (slice buf 61 (61 + l)))
        ∨ (t = 4 ∧ i = 60 ∧ l = 16
          ∧ ∃ gs, readGroups (slice buf 60 76) 0 8 = .ok gs
            ∧ v = joinWith ':' (gs.map (fun g => numberToString 16 g))))
    (h1 : buf[i + l]? = some hi) (h2 : buf[i + l + 1]? = some lo)
    (hname : t = 3 → ∃ (cs : List Char) (N : Nat), uint8At buf 60 = some N
      ∧ slice buf 61 (61 + N) = utf8Encode cs ∧ cs.head? ≠ some byteOrderMark) :
    encodeAddress t v (256 * hi.val + lo.val) = some (slice buf 59 (i + l + 2)) := by
  obtain ⟨tb, htb, htv⟩ := uint8At_eq_some buf 59 t ht
  have hlen := length_of_getElem?_eq_some buf _ _ h2
  rcases hcase with ⟨rfl, rfl, rfl, rfl⟩ | ⟨rfl, rfl, hN, rfl⟩ | ⟨rfl, rfl, rfl, gs, hgs, rfl⟩
  · have hal : (slice buf 60 64).length = 4 := by rw [slice_length]; omega
    have htb1 : tb = 1 := Fin.ext htv
    rw [encodeAddress_ipv4 (slice buf 60 64) hal hi lo,
      slice_split buf 59 60 (60 + 4 + 2) (by omega) (by omega), slice_one buf 59 tb htb,
      slice_split buf 60 64 (60 + 4 + 2) (by omega) (by omega), slice_two buf 64 hi lo h1 h2,
      htb1]
    rfl
  · obtain ⟨cs, N, hN', hcs, hbom⟩ := hname rfl
    have hNl : N = l := by
      rw [hN] at hN'
      exact (Option.some.inj hN').symm
    subst hNl
    obtain ⟨nb, hnb, hnv⟩ := uint8At_eq_some buf 60 N hN
    have hal : (utf8Encode cs).length = nb.val := by
      rw [← hcs, slice_length, hnv]; omega
    have htb3 : tb = 3 := Fin.ext htv
    rw [hcs, textDecode_utf8Encode cs hbom, encodeAddress_name cs nb hi lo hal,
      slice_split buf 59 60 (61 + N + 2) (by omega) (by omega), slice_one buf 59 tb htb,
      slice_split buf 60 61 (61 + N + 2) (by omega) (by omega), slice_one buf 60 nb hnb,
      slice_split buf 61 (61 + N) (61 + N + 2) (by omega) (by omega),
      slice_two buf (61 + N) hi lo h1 h2, hcs, htb3]
    rfl
  · have hal : (slice buf 60 76).length ≤ 16 := by rw [slice_length]; omega
    have htb4 : tb = 4 := Fin.ext htv
    rw [encodeAddress_ipv6 (slice buf 60 76) gs hgs hal hi lo,
      slice_split buf 59 60 (60 + 16 + 2) (by omega) (by omega), slice_one buf 59 tb htb,
      slice_split buf 60 76 (60 + 16 + 2) (by omega) (by omega), slice_two buf 76 hi lo h1 h2,
      htb4]
    rfl

/-- C7 (as amended): for every header that the decoding (lines 231-300) accepts with
address type 1 or 4, and with address type 3 when the N name bytes are the UTF-8
encoding of a string that does not begin with the byte order mark U+FEFF, re-encoding
(addressType, addressValue, port) in the wire format gives exactly the bytes of the
header from the address type at offset 59 to the second port byte, and every buffer
that carries the re-encoded bytes there after a command byte 1 or 3 decodes again to
the same (addressType, addressValue, port). -/
theorem C7_decode_reencode_roundtrip (buf : List Byte) (r : HeaderResult)
    (hr : decodeHeader buf = .ok r) (hE : r.hasError = false)
    (hname : r.addressType = some 3 →
      ∃ (cs : List Char) (N : Nat), uint8At buf 60 = some N
        ∧ slice buf 61 (61 + N) = utf8Encode cs ∧ cs.head? ≠ some byteOrderMark) :
    ∃ (t port p : Nat) (v : List Char),
      r.addressType = some t ∧ r.addressRemote = some (String.mk v)
      ∧ r.portRemote = some port ∧ r.rawDataIndex = some (p + 4)
      ∧ encodeAddress t v port = some (slice buf 59 (p + 2))
      ∧ ∀ buf' : List Byte, (uint8At buf' 58 = some 1 ∨ uint8At buf' 58 = some 3) →
          encodeAddress t v port = some (slice buf' 59 (p + 2)) →
          ∃ r', decodeHeader buf' = .ok r' ∧ r'.hasError = false
            ∧ r'.addressType = some t ∧ r'.addressRemote = some (String.mk v)
            ∧ r'.portRemote = some port := by
  obtain ⟨cmd, t, i, l, v, hi, lo, -, -, ht, hcase, hv, h1, h2, rfl⟩ :=
    decodeHeader_ok buf r hr hE
  have henc := encodeAddress_decoded buf t i l v hi lo ht hcase h1 h2
    (fun h3 => hname (by rw [h3]))
  refine ⟨t, 256 * hi.val + lo.val, i + l, v, rfl, rfl, rfl, rfl, henc, ?_⟩
  intro buf' hcmd' henc'
  rw [henc] at henc'
  have hs : slice buf' 59 (i + l + 2) = slice buf 59 (i + l + 2) :=
    (Option.some.inj henc').symm
  rcases hcmd' with h | h
  · exact ⟨_, decodeHeader_again buf buf' 1 t i l v hi lo h (Or.inl rfl) ht hcase hv h1 h2 hs,
      rfl, rfl, rfl, rfl⟩
  · exact ⟨_, decodeHeader_again buf buf' 3 t i l v hi lo h (Or.inr rfl) ht hcase hv h1 h2 hs,
      rfl, rfl, rfl, rfl⟩


theorem C7_decode_reencode_roundtrip_witness :
    ∃ (t port p : Nat) (v : List Char),
      (HeaderResult.mk false none (some "abc") (some 3) (some 443) (some 68)
          (some false)).addressType = some t
      ∧ (HeaderResult.mk false none (some "abc") (some 3) (some 443) (some 68)
          (some false)).addressRemote = some (String.mk v)
      ∧ (HeaderResult.mk false none (some "abc") (some 3) (some 443) (some 68)
          (some false)).portRemote = some port
      ∧ (HeaderResult.mk false none (some "abc") (some 3) (some 443) (some 68)
          (some false)).rawDataIndex = some (p + 4)
      ∧ encodeAddress t v port
          = some (slice (headerFrom58 [1, 3, 3, 97, 98, 99, 1, 187, 13, 10, 22, 3]) 59 (p + 2))
      ∧ ∀ buf' : List Byte, (uint8At buf' 58 = some 1 ∨ uint8At buf' 58 = some 3) →
          encodeAddress t v port = some (slice buf' 59 (p + 2)) →
          ∃ r', decodeHeader buf' = .ok r' ∧ r'.hasError = false
            ∧ r'.addressType = some t ∧ r'.addressRemote = some (String.mk v)
            ∧ r'.portRemote = some port :=
  C7_decode_reencode_roundtrip (headerFrom58 [1, 3, 3, 97, 98, 99, 1, 187, 13, 10, 22, 3])
    (HeaderResult.mk false none (some "abc") (some 3) (some 443) (some 68) (some false))
    (by decide) rfl
    (fun _ => ⟨['a', 'b', 'c'], 3, by decide, by decide, by decide⟩)

/-- C7 (counterexample): the header with command 1, address type 3, N = 1, name byte
FF and port 80 is accepted; the name decodes to the replacement character U+FFFD, and
re-encoding (3, that name, 80) gives 03 03 EF BF BD 00 50, not the bytes 03 01 FF 00 50
the header carried. -/
theorem C7_counterexample_name_not_utf8 :
    decodeHeader (headerFrom58 [1, 3, 1, 0xFF, 0, 80, 13, 10])
      = .ok { hasError := false, addressRemote := some (String.mk [replacementChar]),
              addressType := some 3, portRemote := some 80, rawDataIndex := some 66,
              isUDP := some false }
    ∧ slice (headerFrom58 [1, 3, 1, 0xFF, 0, 80, 13, 10]) 59 64 = [3, 1, 0xFF, 0, 80]
    ∧ encodeAddress 3 [replacementChar] 80 = some [3, 3, 0xEF, 0xBF, 0xBD, 0, 80]
    ∧ encodeAddress 3 [replacementChar] 80
        ≠ some (slice (headerFrom58 [1, 3, 1, 0xFF, 0, 80, 13, 10]) 59 64) := by
  decide


/-! ## Safe teardown -/

/-- The function `safeCloseWebSocket` always returns normally. -/
theorem safeCloseWebSocket_ok (raises : WebSocket → Option JSError) (s : WebSocket) :
    ∃ o, safeCloseWebSocket raises s = .ok o := by
  unfold safeCloseWebSocket
  cases safeCloseTry raises s with
  | ok o => exact ⟨o, rfl⟩
  | error e => exact ⟨_, rfl⟩

/-- The outcome of `safeCloseWebSocket` on a socket that is neither open nor closing. -/
theorem safeCloseWebSocket_of_not_open_closing (raises : WebSocket → Option JSError)
    (s : WebSocket) (h : ¬ (s.readyState = 1 ∨ s.readyState = 2)) :
    safeCloseWebSocket raises s = .ok { socket := s, closeCalled := false, logged := none } := by
  unfold safeCloseWebSocket safeCloseTry WS_READY_STATE_OPEN WS_READY_STATE_CLOSING
  rw [if_neg h]

/-- The outcome of `safeCloseWebSocket` on a socket that is open or closing: `close` is
called; the socket changes only when the call is accepted on an open socket. -/
theorem safeCloseWebSocket_of_open_closing (raises : WebSocket → Option JSError)
    (s : WebSocket) (h : s.readyState = 1 ∨ s.readyState = 2) :
    ∃ o, safeCloseWebSocket raises s = .ok o ∧ o.closeCalled = true
      ∧ ((o.socket = s ∧ (s.readyState = 2 ∨ o.logged ≠ none))
        ∨ (s.readyState = 1 ∧ o.logged = none
          ∧ o.socket = { readyState := 2, closeEffects := s.closeEffects + 1 })) := by
  unfold safeCloseWebSocket safeCloseTry WS_READY_STATE_OPEN WS_READY_STATE_CLOSING
    WebSocket.close
  rw [if_pos h]
  cases hr : raises s with
  | some e => exact ⟨_, rfl, rfl, Or.inl ⟨rfl, Or.inr (by simp)⟩⟩
  | none =>
    by_cases h2 : s.readyState = 2 ∨ s.readyState = 3
    · simp only [if_pos h2]
      refine ⟨_, rfl, rfl, Or.inl ⟨rfl, Or.inl ?_⟩⟩
      omega
    · simp only [if_neg h2]
      refine ⟨_, rfl, rfl, Or.inr ⟨?_, rfl, rfl⟩⟩
      omega

/-- C11: for a socket in any ready state and whatever the runtime does on `close`
(accept the call or raise an exception), `safeCloseWebSocket` returns normally, and it
calls `close` exactly when the ready state is open (1) or closing (2). Invoked twice
in sequence, both invocations return normally; when the first invocation changed the
socket (its `close` started the closing handshake), the second leaves the socket
exactly as the first left it; the same holds whenever the first invocation logged no
error; and over both invocations there is at most one close effect on the socket. -/
theorem C11_safeCloseWebSocket_idempotent (raises₁ raises₂ : WebSocket → Option JSError)
    (s : WebSocket) :
    ∃ o₁ o₂ : CloseOutcome,
      safeCloseWebSocket raises₁ s = .ok o₁
      ∧ safeCloseWebSocket raises₂ o₁.socket = .ok o₂
      ∧ (o₁.closeCalled = true ↔ s.readyState = 1 ∨ s.readyState = 2)
      ∧ (o₂.closeCalled = true ↔ o₁.socket.readyState = 1 ∨ o₁.socket.readyState = 2)
      ∧ (o₁.socket ≠ s → o₂.socket = o₁.socket)
      ∧ (o₁.logged = none → o₂.socket = o₁.socket)
      ∧ o₂.socket.closeEffects ≤ s.closeEffects + 1 := by
  by_cases h : s.readyState = 1 ∨ s.readyState = 2
  · obtain ⟨o1, h1, hc1, hcase1⟩ := safeCloseWebSocket_of_open_closing raises₁ s h
    rcases hcase1 with ⟨hs1, hl1⟩ | ⟨hr1, hl1, hs1⟩
    · obtain ⟨o2, h2, hc2, hcase2⟩ := safeCloseWebSocket_of_open_closing raises₂ s h
      refine ⟨o1, o2, h1, by rw [hs1]; exact h2, by simp [hc1, h], by simp [hc2, hs1, h],
        fun hne => absurd hs1 hne, ?_, ?_⟩
      · intro hlog
        rcases hcase2 with ⟨hs2, -⟩ | ⟨hr2, -, -⟩
        · rw [hs1, hs2]
        · rcases hl1 with h2' | hne
          · omega
          · exact absurd hlog hne
      · rcases hcase2 with ⟨hs2, -⟩ | ⟨-, -, hs2⟩
        · rw [hs2]; omega
        · rw [hs2]
    · have h' : o1.socket.readyState = 1 ∨ o1.socket.readyState = 2 := by
        rw [hs1]; exact Or.inr rfl
      obtain ⟨o2, h2, hc2, hcase2⟩ := safeCloseWebSocket_of_open_closing raises₂ o1.socket h'
      have hsame : o2.socket = o1.socket := by
        rcases hcase2 with ⟨hs2, -⟩ | ⟨hr2, -, -⟩
        · exact hs2
        · rw [hs1] at hr2
          simp at hr2
      refine ⟨o1, o2, h1, h2, by simp [hc1, h], by simp [hc2, h'], fun _ => hsame,
        fun _ => hsame, ?_⟩
      rw [hsame, hs1]
  · have h1 := safeCloseWebSocket_of_not_open_closing raises₁ s h
    have h2 := safeCloseWebSocket_of_not_open_closing raises₂ s h
    exact ⟨_, _, h1, h2, by simp [h], by simp [h], fun _ => rfl, fun _ => rfl, by simp⟩

theorem C11_safeCloseWebSocket_idempotent_witness :
    ∃ o₁ o₂ : CloseOutcome,
      safeCloseWebSocket (fun _ => none) { readyState := 1, closeEffects := 0 } = .ok o₁
      ∧ safeCloseWebSocket (fun _ => some (.error "WebSocket is already closed")) o₁.socket
          = .ok o₂
      ∧ (o₁.closeCalled = true
          ↔ ({ readyState := 1, closeEffects := 0 } : WebSocket).readyState = 1
            ∨ ({ readyState := 1, closeEffects := 0 } : WebSocket).readyState = 2)
      ∧ (o₂.closeCalled = true ↔ o₁.socket.readyState = 1 ∨ o₁.socket.readyState = 2)
      ∧ (o₁.socket ≠ { readyState := 1, closeEffects := 0 } → o₂.socket = o₁.socket)
      ∧ (o₁.logged = none → o₂.socket = o₁.socket)
      ∧ o₂.socket.closeEffects
          ≤ ({ readyState := 1, closeEffects := 0 } : WebSocket).closeEffects + 1 :=
  C11_safeCloseWebSocket_idempotent (fun _ => none)
    (fun _ => some (.error "WebSocket is already closed")) { readyState := 1, closeEffects := 0 }

end TrojanWs
